import Mathlib

/-!
Verification development for the twig terminal-multiplexer session manager.

The definitions below are a shallow embedding of the control-protocol client
(`src/tmux_control.rs`) and the session-orchestration / handoff logic
(`src/tmux.rs`).  Byte streams are modelled as lists of input lines; the
subprocess connection is modelled by an operation trace together with an
oracle describing which protocol calls succeed and which lines each
line-returning call observes.  Machine integers (`u32`, `u64`, `u128`) are
modelled as `Nat` with explicit range checks where the code parses them.
-/

namespace Twig

/-! ### String utilities mirroring the Rust standard library -/

/-- Decimal digit characters of `n`, most significant first, with fuel
(`format!("{}", n)` for an unsigned integer).  The fuel is always at least
the number of digits. -/
def natCharsAux : Nat → Nat → List Char
  | 0, _ => []
  | fuel + 1, n =>
    if n < 10 then [Nat.digitChar n]
    else natCharsAux fuel (n / 10) ++ [Nat.digitChar (n % 10)]

/-- Decimal representation of `n` as a character list. -/
def natChars (n : Nat) : List Char :=
  natCharsAux (n + 1) n

/-- Decimal representation of `n` as a string (Rust `format!("{}", n)`). -/
def natStr (n : Nat) : String :=
  ⟨natChars n⟩

/-- Rust `str::starts_with(pat)` for a string pattern. -/
def strStarts (s pat : String) : Bool :=
  pat.data.isPrefixOf s.data

/-- Is the character one of `'\r'`, `'\n'`? -/
def isCrLf (c : Char) : Bool :=
  c = '\r' || c = '\n'

/-- Rust `str::trim_end_matches(['\r', '\n'])`. -/
def trimEndCrLf (s : String) : String :=
  ⟨(s.data.reverse.dropWhile isCrLf).reverse⟩

/-- Rust `str::trim` (strip whitespace from both ends). -/
def trimStr (s : String) : String :=
  ⟨((s.data.dropWhile Char.isWhitespace).reverse.dropWhile Char.isWhitespace).reverse⟩

/-- Helper for `splitWs`: accumulates the current word (reversed). -/
def splitWsAux : List Char → List Char → List String
  | cur, [] => if cur.isEmpty then [] else [⟨cur.reverse⟩]
  | cur, c :: cs =>
    if c.isWhitespace then
      if cur.isEmpty then splitWsAux [] cs
      else ⟨cur.reverse⟩ :: splitWsAux [] cs
    else splitWsAux (c :: cur) cs

/-- Rust `str::split_whitespace`: whitespace-separated words, no empties. -/
def splitWs (s : String) : List String :=
  splitWsAux [] s.data

/-- Helper for `splitChar`: accumulates the current field (reversed). -/
def splitCharAux (sep : Char) : List Char → List Char → List String
  | cur, [] => [⟨cur.reverse⟩]
  | cur, c :: cs =>
    if c = sep then ⟨cur.reverse⟩ :: splitCharAux sep [] cs
    else splitCharAux sep (c :: cur) cs

/-- Rust `str::split(sep)` for a character separator: keeps empty fields,
always yields at least one field. -/
def splitChar (sep : Char) (s : String) : List String :=
  splitCharAux sep [] s.data

/-- Numeric value of a decimal digit string (the digits are already checked). -/
def decimalToNat (l : List Char) : Nat :=
  l.foldl (fun a c => 10 * a + (c.toNat - 48)) 0

/-- Rust `str::parse::<uN>()` for an unsigned integer type whose values are
`< bound`: an optional leading `'+'`, then one or more ASCII digits, value in
range. -/
def parseUInt (bound : Nat) (s : String) : Option Nat :=
  let d := s.data
  let d := if d.headD ' ' = '+' then d.tail else d
  if d.isEmpty then none
  else if d.all Char.isDigit then
    if decimalToNat d < bound then some (decimalToNat d) else none
  else none

/-- Rust `str::parse::<u64>()`. -/
def parseU64 (s : String) : Option Nat :=
  parseUInt (2 ^ 64) s

/-- Rust `str::parse::<u32>()`. -/
def parseU32 (s : String) : Option Nat :=
  parseUInt (2 ^ 32) s

/-! ### Protocol client: response framing (`src/tmux_control.rs`) -/

/-- Error outcomes of a `ControlClient` call.  `closed` models a zero-byte
read (stream ended), `exited` an `%exit` line, `protocol raw` an `%error`
line carrying the raw line text, `malformed raw` an unparseable begin/end
marker carrying the offending line. -/
inductive CmdErr
  | closed
  | exited
  | protocol (raw : String)
  | malformed (raw : String)
deriving DecidableEq, Repr

/-- `parse_command_id`: split the line on whitespace; the first token must
start with `'%'`; skip the timestamp token; parse the third token as `u64`. -/
def parse_command_id (line : String) : Except CmdErr Nat :=
  let parts := splitWs line
  if strStarts (parts.headD "") "%" = false then .error (.malformed line)
  else
    match parts with
    | _ :: _time :: id :: _ =>
      match parseU64 id with
      | some n => .ok n
      | none => .error (.malformed line)
    | _ => .error (.malformed line)

/-- The read loop of `ControlClient::command`, processing already
`\r\n`-trimmed lines.  `cid` is the `command_id` state, `acc` the collected
output lines.  An empty list models a zero-byte read. -/
def commandLoopT : Option Nat → List String → List String → Except CmdErr (List String)
  | _, _, [] => .error .closed
  | cid, acc, t :: ls =>
    if strStarts t "%exit" then .error .exited
    else if strStarts t "%error" then .error (.protocol t)
    else if strStarts t "%begin" then
      match cid with
      | none =>
        match parse_command_id t with
        | .ok n => commandLoopT (some n) acc ls
        | .error e => .error e
      | some _ => commandLoopT cid acc ls
    else if strStarts t "%end" then
      match cid with
      | some expected =>
        match parse_command_id t with
        | .ok n => if n = expected then .ok acc else commandLoopT cid acc ls
        | .error e => .error e
      | none => commandLoopT cid acc ls
    else
      match cid with
      | none => commandLoopT none acc ls
      | some _ =>
        if strStarts t "%" then commandLoopT cid acc ls
        else commandLoopT cid (acc ++ [t]) ls

/-- `ControlClient::command` on one connection: each line read is first
stripped of trailing `'\r'`/`'\n'`, then fed to the framing loop. -/
def commandRun (ls : List String) : Except CmdErr (List String) :=
  commandLoopT none [] (ls.map trimEndCrLf)

/-- Mutable state of the `ControlClient::command_with_output` read loop. -/
structure CwoState where
  output : List String
  err : Option CmdErr
  command_id : Option Nat
  sentinel_id : Option Nat
  sentinel_seen : Bool
  sentinel_end_seen : Bool
deriving DecidableEq, Repr

/-- Initial `command_with_output` loop state. -/
def cwoInit : CwoState :=
  ⟨[], none, none, none, false, false⟩

/-- After the `command_with_output` loop: report the remembered error, or
the collected output. -/
def cwoFinish (st : CwoState) : Except CmdErr (List String) :=
  match st.err with
  | some e => .error e
  | none => .ok st.output

/-- One iteration of the `command_with_output` read loop on one trimmed
line: either the updated loop state, or an immediate error (an unparseable
begin/end marker propagates at once via `?`). -/
def cwoStep (sentinel : String) (st : CwoState) (t : String) : Except CmdErr CwoState :=
  if strStarts t "%exit" then .ok { st with err := some .exited }
  else if strStarts t "%error" then
    .ok { st with err := if st.err.isNone then some (.protocol t) else st.err }
  else if strStarts t "%begin" then
    if st.command_id.isNone then
      match parse_command_id t with
      | .ok n => .ok { st with command_id := some n }
      | .error e => .error e
    else if st.sentinel_id.isNone then
      match parse_command_id t with
      | .ok n => .ok { st with sentinel_id := some n }
      | .error e => .error e
    else .ok st
  else if strStarts t "%end" then
    match st.sentinel_id with
    | some id =>
      match parse_command_id t with
      | .ok n => .ok (if n = id then { st with sentinel_end_seen := true } else st)
      | .error e => .error e
    | none => .ok st
  else if strStarts t "%" then .ok st
  else if t = sentinel then .ok { st with sentinel_seen := true }
  else .ok { st with output := st.output ++ [t] }

/-- The read loop of `ControlClient::command_with_output` on already
trimmed lines: loops until both the sentinel line and the sentinel
command's end marker have been seen (the condition is re-checked before
each read), stepping through `cwoStep`; the remembered error is reported
only after framing completes. -/
def cwoLoopT (sentinel : String) (st : CwoState) : List String → Except CmdErr (List String)
  | [] =>
    if st.sentinel_seen && st.sentinel_end_seen then cwoFinish st else .error .closed
  | t :: rest =>
    if st.sentinel_seen && st.sentinel_end_seen then cwoFinish st
    else
      match cwoStep sentinel st t with
      | .ok st1 => cwoLoopT sentinel st1 rest
      | .error e => .error e

/-- `ControlClient::command_with_output` with a given generated sentinel
value, on one connection's line stream. -/
def cwoRun (sentinel : String) (ls : List String) : Except CmdErr (List String) :=
  cwoLoopT sentinel cwoInit (ls.map trimEndCrLf)

/-- The sentinel value `__TWIG_DONE__{nonce}__` built from a `u128`
nanosecond nonce. -/
def sentinelFor (nonce : Nat) : String :=
  "__TWIG_DONE__" ++ natStr nonce ++ "__"

/-! ### Typed protocol operations

`tmux.rs` drives the connection exclusively through `ControlClient`
helper methods; each call is modelled as one typed operation. -/

/-- One protocol call issued on the control connection. -/
inductive Op
  | sendKeys (target keys : String) (enter : Bool)
  | waitFor (token : String)
  | listWindows (session : String)
  | listPanes (target : String)
  | runShell (cmd : String)
  | splitWindow (target cwd : String) (dir : Option String)
  | selectLayout (target layout : String)
  | selectPane (target : String)
  | newWindow (session name cwd : String)
  | renameWindow (target name : String)
  | selectWindow (target : String)
deriving DecidableEq, Repr

/-! ### Configuration data model (`src/config/project.rs`) -/

/-- A pane spec: either a shell command string or an empty pane. -/
inductive Pane
  | Command (cmd : String)
  | Empty
deriving DecidableEq, Repr

/-- `Pane::command`. -/
def Pane.command : Pane → Option String
  | .Command cmd => some cmd
  | .Empty => none

/-- Layout and pane list of a complex window. -/
structure WindowConfig where
  layout : Option String
  panes : List Pane
deriving DecidableEq, Repr

/-- A window spec: a simple window with an optional command, or a complex
window with a layout and panes (each YAML map has a single entry, modelled
as the name plus its value). -/
inductive Window
  | Simple (name : String) (cmd : Option String)
  | Complex (name : String) (config : WindowConfig)
deriving DecidableEq, Repr

/-- `Window::name`. -/
def Window.name : Window → String
  | .Simple n _ => n
  | .Complex n _ => n

/-- `Window::simple_command`. -/
def Window.simple_command : Window → Option String
  | .Simple _ c => c
  | .Complex _ _ => none

/-- `Window::panes`. -/
def Window.panes : Window → List Pane
  | .Simple _ _ => []
  | .Complex _ cfg => cfg.panes

/-- `Window::layout`. -/
def Window.layout : Window → Option String
  | .Simple _ _ => none
  | .Complex _ cfg => cfg.layout

/-- `Window::has_panes` (true exactly for complex windows). -/
def Window.has_panes : Window → Bool
  | .Simple _ _ => false
  | .Complex _ _ => true

/-- Worktree section of a project config. -/
structure WorktreeConfig where
  copy : List String
  symlink : List String
  post_create : List String
  handoff_windows : List String
deriving DecidableEq, Repr

/-- A project config (the fields the core reads). -/
structure Project where
  name : String
  root : String
  windows : List Window
  worktree : Option WorktreeConfig
deriving DecidableEq, Repr

/-- `Project::worktree_handoff_windows`. -/
def Project.worktree_handoff_windows (p : Project) : List String :=
  (p.worktree.map WorktreeConfig.handoff_windows).getD []

/-! ### Session orchestration (`src/tmux.rs`, `SessionBuilder`)

The builder issues protocol calls in a fixed order; the embedding computes
the ordered call trace.  Wall-clock reads (`SystemTime::now`) are supplied
as a function of the loop index. -/

/-- The reserved setup window name. -/
def SETUP_WINDOW_NAME : String := "setup-twig"

/-- `unique_wait_token`: `twig-post-create-{session}-{index}-{now}`. -/
def unique_wait_token (session : String) (index : Nat) (now : Nat) : String :=
  "twig-post-create-" ++ session ++ "-" ++ natStr index ++ "-" ++ natStr now

/-- `SessionBuilder::run_post_create_with_control`: for each non-blank
command, in order, send `<trimmed>; tmux wait-for -S <token>` as keystrokes
to the setup window and block on the token.  `times i` is the timestamp
observed for the command at list index `i`. -/
def run_post_create_with_control (session : String) (cmds : List String)
    (times : Nat → Nat) : List Op :=
  if cmds.isEmpty then []
  else
    cmds.enum.flatMap fun p =>
      let trimmed := trimStr p.2
      if trimmed = "" then []
      else
        let token := unique_wait_token session p.1 (times p.1)
        let signal := trimmed ++ "; tmux wait-for -S " ++ token
        [Op.sendKeys (session ++ ":" ++ SETUP_WINDOW_NAME) signal true,
          Op.waitFor token]

/-- The split loop of `setup_window_with_control` over the panes after the
first: split (direction `-v` when the layout is `main-horizontal`, else
`-h`), then send the new pane's command if any. -/
def paneSplitLoop (target root : String) (layout : Option String) : List Pane → List Op
  | [] => []
  | p :: ps =>
    let split_arg := if layout = some "main-horizontal" then some "-v" else some "-h"
    Op.splitWindow target root split_arg ::
      ((match p.command with
        | some cmd => [Op.sendKeys target cmd true]
        | none => []) ++ paneSplitLoop target root layout ps)

/-- `SessionBuilder::setup_window_with_control`: populate one window. -/
def setup_window_with_control (session window_name : String) (w : Window)
    (root : String) (base_index : Nat) : List Op :=
  let target := session ++ ":" ++ window_name
  if w.has_panes then
    (match w.panes.head? with
      | some first_pane =>
        match first_pane.command with
        | some cmd => [Op.sendKeys target cmd true]
        | none => []
      | none => []) ++
    paneSplitLoop target root w.layout (w.panes.drop 1) ++
    (match w.layout with
      | some layout_name => [Op.selectLayout target layout_name]
      | none => []) ++
    [Op.selectPane (target ++ "." ++ natStr base_index)]
  else
    match w.simple_command with
    | some cmd => [Op.sendKeys target cmd true]
    | none => []

/-! ### Session enumeration and handoff (`src/tmux.rs`) -/

/-- The worktree session-name separator `__`. -/
def WORKTREE_SESSION_PREFIX : String := "__"

/-- Rust `str::split_once(sep)` on character lists. -/
def splitOnceData (sep : List Char) : List Char → Option (List Char × List Char)
  | [] => if sep.isEmpty then some ([], []) else none
  | c :: cs =>
    if sep.isPrefixOf (c :: cs) then some ([], (c :: cs).drop sep.length)
    else (splitOnceData sep cs).map fun q => (c :: q.1, q.2)

/-- `worktree_project_name`: the part of the session name before the first
`__`, when present. -/
def worktree_project_name (session_name : String) : Option String :=
  (splitOnceData WORKTREE_SESSION_PREFIX.data session_name.data).map fun q => ⟨q.1⟩

/-- `is_worktree_session_for_project`. -/
def is_worktree_session_for_project (session_name project_name : String) : Bool :=
  match worktree_project_name session_name with
  | some project => project = project_name
  | none => false

/-- `is_project_session`. -/
def is_project_session (project_name session_name : String) : Bool :=
  session_name = project_name || is_worktree_session_for_project session_name project_name

/-- `running_project_sessions`, with the `tmux list-sessions` output
supplied as `all_sessions`. -/
def running_project_sessions (project_name : String) (all_sessions : List String) :
    List String :=
  all_sessions.filter (is_project_session project_name)

/-- A pane's index and optional foreground process id. -/
structure PaneInfo where
  index : Nat
  pid : Option Nat
deriving DecidableEq, Repr

/-- `parse_pane_infos`: for each line, split on tabs; the first field must
parse as a `u32` index; the pid is read from the fifth field when present;
the result is sorted by pane index. -/
def parse_pane_infos (lines : List String) : List PaneInfo :=
  (lines.filterMap fun line =>
    let parts := splitChar '\t' line
    match parseU32 (trimStr (parts.headD "")) with
    | some index =>
      some { index := index, pid := ((parts.drop 4).head?).bind fun v => parseU32 (trimStr v) }
    | none => none).insertionSort fun a b => a.index ≤ b.index

/-- `handoff_stop_token`: `twig-handoff-stop:{session}:{window}:{pane}`. -/
def handoff_stop_token (session_name window_name : String) (pane_index : Nat) : String :=
  "twig-handoff-stop:" ++ session_name ++ ":" ++ window_name ++ ":" ++ natStr pane_index

/-- `handoff_stop_signal`: the shell command typed into the pane. -/
def handoff_stop_signal (stop_token : String) : String :=
  "tmux wait-for -S " ++ stop_token

/-- `send_pane_interrupt_signal`'s command text. -/
def interruptCmd (pane_pid : Nat) : String :=
  "run-shell -b \"kill -s SIGINT " ++ natStr pane_pid ++ "\""

/-- `commands_for_window`: the non-blank configured commands of the named
window (the trimmed simple command, or the trimmed non-empty pane commands). -/
def commands_for_window (windows : List Window) (window_name : String) : List String :=
  match windows.find? fun w => w.name = window_name with
  | none => []
  | some w =>
    match w.simple_command with
    | some cmd =>
      let trimmed := trimStr cmd
      if trimmed = "" then [] else [trimmed]
    | none =>
      ((w.panes.filterMap Pane.command).map trimStr).filter fun command => ¬ command = ""

/-! ### Handoff coordinator (`handoff_project_windows`)

Each protocol call is logged with whether its failure would be recorded
(`checked`) and whether it succeeded (`ok`, from the oracle, indexed by the
call's position in the log).  `first_error` is modelled as the index of the
first recorded failing call. -/

/-- One logged protocol call of a handoff invocation. -/
structure CallLog where
  op : Op
  checked : Bool
  ok : Bool
deriving DecidableEq, Repr

/-- Handoff state: the calls issued so far and the recorded first error
(the index of the failing call), if any. -/
structure HSt where
  calls : List CallLog
  firstErr : Option Nat
deriving DecidableEq, Repr

/-- The empty handoff state. -/
def hsInit : HSt :=
  ⟨[], none⟩

/-- Issue one protocol call: log it, consult the oracle at the call's
index, and record its failure when `checked` and no earlier error was
recorded (`if first_error.is_none() { first_error = Some(err) }`). -/
def hsCall (oracle : Nat → Bool) (checked : Bool) (st : HSt) (o : Op) : HSt × Bool :=
  let k := st.calls.length
  let ok := oracle k
  (⟨st.calls ++ [⟨o, checked, ok⟩],
    if checked && !ok && st.firstErr.isNone then some k else st.firstErr⟩, ok)

/-- The per-pane stop loop: for each pane in order, optionally deliver the
best-effort interrupt signal to its pid (failure ignored), inject the
`C-c` keystroke, then inject the stop-signal command; a failed injection
records the error and breaks out of the pane loop. -/
def handoffPanes (oracle : Nat → Bool) (session_name window_name : String) :
    List PaneInfo → HSt → HSt
  | [], st => st
  | pane :: rest, st =>
    let target := session_name ++ ":" ++ window_name ++ "." ++ natStr pane.index
    let st1 :=
      match pane.pid with
      | some pid => (hsCall oracle false st (Op.runShell (interruptCmd pid))).1
      | none => st
    let stop_token := handoff_stop_token session_name window_name pane.index
    match hsCall oracle true st1 (Op.sendKeys target "C-c" false) with
    | (st2, false) => st2
    | (st2, true) =>
      match hsCall oracle true st2
          (Op.sendKeys target (handoff_stop_signal stop_token) true) with
      | (st3, false) => st3
      | (st3, true) => handoffPanes oracle session_name window_name rest st3

/-- The replay loop over the enumerated commands: stop when the command
index reaches the number of pane indices, else send the command to the
pane index at that position; a failed send records the error and breaks. -/
def handoffReplay (oracle : Nat → Bool) (session_name window_name : String)
    (pane_indices : List Nat) : List (Nat × String) → HSt → HSt
  | [], st => st
  | (command_index, command) :: rest, st =>
    if pane_indices.length ≤ command_index then st
    else
      let pane_target :=
        session_name ++ ":" ++ window_name ++ "." ++ natStr (pane_indices.getD command_index 0)
      match hsCall oracle true st (Op.sendKeys pane_target command true) with
      | (st1, false) => st1
      | (st1, true) => handoffReplay oracle session_name window_name pane_indices rest st1

/-- Process one configured handoff window inside one session: skip it when
the session does not carry a window of that name; otherwise list its panes
(an error records and skips the window), stop every pane, and replay the
commands when this session is the target. -/
def handoffWindow (oracle : Nat → Bool) (paneLines : Nat → List String)
    (session_name : String) (is_target : Bool) (session_windows : List String)
    (window_name : String) (commands : List String) (st : HSt) : HSt :=
  if ¬ session_windows.contains window_name then st
  else
    let pane_target := session_name ++ ":" ++ window_name
    let k := st.calls.length
    match hsCall oracle true st (Op.listPanes pane_target) with
    | (st1, false) => st1
    | (st1, true) =>
      let pane_infos := parse_pane_infos (paneLines k)
      if pane_infos.isEmpty then st1
      else
        let pane_indices := pane_infos.map PaneInfo.index
        let st2 := handoffPanes oracle session_name window_name pane_infos st1
        if is_target then
          handoffReplay oracle session_name window_name pane_indices commands.enum st2
        else st2

/-- Process one sibling session: list its windows (an error records and
skips the session), then process every configured handoff window. -/
def handoffSession (oracle : Nat → Bool) (winLines paneLines : Nat → List String)
    (target_session : String) (configured_windows : List (String × List String))
    (session_name : String) (st : HSt) : HSt :=
  let k := st.calls.length
  match hsCall oracle true st (Op.listWindows session_name) with
  | (st1, false) => st1
  | (st1, true) =>
    let session_windows := winLines k
    let is_target := session_name = target_session
    configured_windows.foldl
      (fun st wc => handoffWindow oracle paneLines session_name is_target
        session_windows wc.1 wc.2 st) st1

/-- `handoff_project_windows`: the calls issued and the final result
(`none` for `Ok`, `some k` for the reported error wrapping the error of
call `k`).  `all_sessions` is the `tmux list-sessions` output; `winLines k`
and `paneLines k` are the lines returned by a successful window or pane
listing issued as call `k`. -/
def handoff_project_windows (project : Project) (target_session : String)
    (all_sessions : List String) (oracle : Nat → Bool)
    (winLines paneLines : Nat → List String) : HSt × Option Nat :=
  let handoff_windows := project.worktree_handoff_windows
  if handoff_windows.isEmpty then (hsInit, none)
  else
    let sessions := running_project_sessions project.name all_sessions
    if sessions.isEmpty then (hsInit, none)
    else
      let configured_windows := handoff_windows.filterMap fun window_name =>
        let commands := commands_for_window project.windows window_name
        if commands.isEmpty then none else some (window_name, commands)
      if configured_windows.isEmpty then (hsInit, none)
      else
        let st := sessions.foldl
          (fun st session_name => handoffSession oracle winLines paneLines
            target_session configured_windows session_name st) hsInit
        (st, st.firstErr)

/-- A concrete one-session, one-window, one-pane handoff scenario used in
closed evaluations below. -/
def demoProject : Project :=
  { name := "p", root := "/r",
    windows := [Window.Simple "server" (some "npm start")],
    worktree := some { copy := [], symlink := [], post_create := [],
                       handoff_windows := ["server"] } }

/-- Response lines for `demoProject`: call 0 lists windows, call 1 lists
panes. -/
def demoWinLines : Nat → List String := fun _ => ["server"]

/-- See `demoWinLines`. -/
def demoPaneLines : Nat → List String := fun _ => ["0\t%0\tnode\t/x"]

/-! ### Lemmas about decimal formatting -/

theorem digitChar_toNat (m : Nat) (h : m < 10) : (Nat.digitChar m).toNat = m + 48 := by
  interval_cases m <;> rfl

theorem digitChar_ne_dash (m : Nat) (h : m < 10) : Nat.digitChar m ≠ '-' := by
  interval_cases m <;> decide

theorem decimalToNat_natCharsAux (fuel : Nat) :
    ∀ n, n < fuel → decimalToNat (natCharsAux fuel n) = n := by
  induction fuel with
  | zero => intro n h; omega
  | succ fuel ih =>
    intro n h
    by_cases h10 : n < 10
    · simp only [natCharsAux, if_pos h10, decimalToNat, List.foldl_cons, List.foldl_nil]
      rw [digitChar_toNat n h10]
      omega
    · have hdiv : n / 10 < n := Nat.div_lt_self (by omega) (by omega)
      simp only [natCharsAux, if_neg h10, decimalToNat, List.foldl_append,
        List.foldl_cons, List.foldl_nil]
      have := ih (n / 10) (by omega)
      simp only [decimalToNat] at this
      rw [this, digitChar_toNat (n % 10) (Nat.mod_lt n (by omega))]
      omega

theorem decimalToNat_natChars (n : Nat) : decimalToNat (natChars n) = n :=
  decimalToNat_natCharsAux (n + 1) n (Nat.lt_succ_self n)

theorem natChars_injective {a b : Nat} (h : natChars a = natChars b) : a = b := by
  have ha := decimalToNat_natChars a
  rw [h, decimalToNat_natChars b] at ha
  exact ha.symm

theorem dash_not_mem_natCharsAux (fuel : Nat) :
    ∀ n, '-' ∉ natCharsAux fuel n := by
  induction fuel with
  | zero => intro n; simp [natCharsAux]
  | succ fuel ih =>
    intro n
    by_cases h10 : n < 10
    · simp only [natCharsAux, if_pos h10, List.mem_singleton]
      exact fun he => digitChar_ne_dash n h10 he.symm
    · simp only [natCharsAux, if_neg h10, List.mem_append, List.mem_singleton]
      rintro (hm | he)
      · exact ih (n / 10) hm
      · exact digitChar_ne_dash (n % 10) (Nat.mod_lt n (by omega)) he.symm

theorem dash_not_mem_natChars (n : Nat) : '-' ∉ natChars n :=
  dash_not_mem_natCharsAux (n + 1) n

/-- Splitting a dash-delimited concatenation at the first dash is
unambiguous when neither left part contains a dash. -/
theorem dash_split (a : List Char) :
    ∀ (b c d : List Char), '-' ∉ a → '-' ∉ b →
      a ++ '-' :: c = b ++ '-' :: d → a = b ∧ c = d := by
  induction a with
  | nil =>
    intro b c d _ hb he
    cases b with
    | nil => simpa using he
    | cons y bs =>
      simp only [List.nil_append, List.cons_append, List.cons.injEq] at he
      exact absurd (by rw [← he.1]; exact List.mem_cons_self '-' bs) hb
  | cons x as ih =>
    intro b c d ha hb he
    cases b with
    | nil =>
      simp only [List.cons_append, List.nil_append, List.cons.injEq] at he
      exact absurd (by rw [he.1]; exact List.mem_cons_self '-' as) ha
    | cons y bs =>
      simp only [List.cons_append, List.cons.injEq] at he
      obtain ⟨hxy, htl⟩ := he
      have := ih bs c d (fun hm => ha (List.mem_cons_of_mem x hm))
        (fun hm => hb (List.mem_cons_of_mem y hm)) htl
      exact ⟨by rw [hxy, this.1], this.2⟩

/-- `String.data` distributes over append (definitionally). -/
theorem strData_append (a b : String) : (a ++ b).data = a.data ++ b.data := rfl

/-- Claim C8: wait tokens for the same session at distinct sequence
indices differ as strings, whatever the two observed timestamps are. -/
theorem claim8_token_unique (session : String) (i j t1 t2 : Nat) (h : i ≠ j) :
    unique_wait_token session i t1 ≠ unique_wait_token session j t2 := by
  intro he
  have hd := congrArg String.data he
  simp only [unique_wait_token, natStr, strData_append, List.append_assoc] at hd
  have hd2 := List.append_cancel_left hd
  have hd3 := List.append_cancel_left hd2
  simp only [List.singleton_append, List.cons.injEq, true_and] at hd3
  have := dash_split (natChars i) (natChars j) (natChars t1) (natChars t2)
    (dash_not_mem_natChars i) (dash_not_mem_natChars j) hd3
  exact h (natChars_injective this.1)

/-- Witness for C8 at session `"s"`, indices `0` and `1`. -/
theorem claim8_witness :
    unique_wait_token "s" 0 7 ≠ unique_wait_token "s" 1 7 :=
  claim8_token_unique "s" 0 1 7 7 (by decide)

/-! ### C7: blank post-create commands -/

/-- A flat-map whose body yields nothing on elements satisfying `P` equals
the flat-map over the elements not satisfying `P`. -/
theorem flatMap_if_eq_filter_flatMap {α β : Type} (P : α → Prop) [DecidablePred P]
    (g : α → List β) :
    ∀ l : List α,
      (l.flatMap fun x => if P x then [] else g x) =
        (l.filter fun x => ¬ P x).flatMap g := by
  intro l
  induction l with
  | nil => rfl
  | cons x xs ih =>
    by_cases hx : P x <;>
      simp [List.flatMap_cons, List.filter_cons, hx, ih]

/-- Counterexample to claim C7's final clause: with identical observed
timestamps, the call sequence for `[" ", "x"]` differs from the call
sequence for `["x"]`, because the surviving command's wait token embeds
its original list index. -/
theorem claim7_counterexample :
    run_post_create_with_control "s" [" ", "x"] (fun _ => 0) ≠
      run_post_create_with_control "s" ["x"] (fun _ => 0) := by
  decide

/-- Claim C7 (amended): a blank (empty or whitespace-only) post-create
command contributes no protocol calls at all — no wait token, no
keystrokes, no wait-for — so the trace equals the trace of the non-blank
commands alone; those commands keep their original list indices in their
wait tokens, so the trace need not equal the one obtained by deleting the
blank command from the list. -/
theorem claim7_amended (session : String) (cmds : List String) (times : Nat → Nat) :
    run_post_create_with_control session cmds times =
      (cmds.enum.filter fun p => ¬ trimStr p.2 = "").flatMap fun p =>
        [Op.sendKeys (session ++ ":" ++ SETUP_WINDOW_NAME)
          (trimStr p.2 ++ "; tmux wait-for -S " ++
            unique_wait_token session p.1 (times p.1)) true,
          Op.waitFor (unique_wait_token session p.1 (times p.1))] := by
  by_cases hc : cmds.isEmpty
  · cases cmds with
    | nil => rfl
    | cons c cs => simp at hc
  · simp only [run_post_create_with_control, if_neg hc]
    exact flatMap_if_eq_filter_flatMap (fun p => trimStr p.2 = "") _ cmds.enum

/-! ### C4: per-window population -/

/-- Is the operation a split? -/
def Op.isSplit : Op → Bool
  | .splitWindow _ _ _ => true
  | _ => false

/-- Is the operation a layout selection? -/
def Op.isSelectLayout : Op → Bool
  | .selectLayout _ _ => true
  | _ => false

/-- Is the operation a keystroke send? -/
def Op.isSendKeys : Op → Bool
  | .sendKeys _ _ _ => true
  | _ => false

/-- Is the operation a blocking wait on a named signal? -/
def Op.isWaitFor : Op → Bool
  | .waitFor _ => true
  | _ => false

/-- Is the operation a shell invocation (`run-shell`)? -/
def Op.isRunShell : Op → Bool
  | .runShell _ => true
  | _ => false

theorem paneSplitLoop_countSplit (target root : String) (layout : Option String) :
    ∀ ps : List Pane, (paneSplitLoop target root layout ps).countP Op.isSplit = ps.length := by
  intro ps
  induction ps with
  | nil => rfl
  | cons p rest ih =>
    cases hp : p.command <;>
      simp [paneSplitLoop, hp, List.countP_cons, List.countP_append, ih, Op.isSplit,
        Op.isSendKeys]

theorem paneSplitLoop_countLayout (target root : String) (layout : Option String) :
    ∀ ps : List Pane, (paneSplitLoop target root layout ps).countP Op.isSelectLayout = 0 := by
  intro ps
  induction ps with
  | nil => rfl
  | cons p rest ih =>
    cases hp : p.command <;>
      simp [paneSplitLoop, hp, List.countP_cons, List.countP_append, ih, Op.isSelectLayout]

theorem paneSplitLoop_countSend (target root : String) (layout : Option String) :
    ∀ ps : List Pane,
      (paneSplitLoop target root layout ps).countP Op.isSendKeys =
        ps.countP fun p => p.command.isSome := by
  intro ps
  induction ps with
  | nil => rfl
  | cons p rest ih =>
    cases hp : p.command <;>
      simp [paneSplitLoop, hp, List.countP_cons, List.countP_append, ih, Op.isSendKeys]

theorem paneSplitLoop_split_dir (target root : String) (layout : Option String) :
    ∀ (ps : List Pane) (t r : String) (d : Option String),
      Op.splitWindow t r d ∈ paneSplitLoop target root layout ps →
        d = if layout = some "main-horizontal" then some "-v" else some "-h" := by
  intro ps
  induction ps with
  | nil => intro t r d h; simp [paneSplitLoop] at h
  | cons p rest ih =>
    intro t r d h
    simp only [paneSplitLoop, List.mem_cons, List.mem_append] at h
    rcases h with h | h
    · exact (Op.splitWindow.injEq _ _ _ _ _ _).mp h.symm |>.2.2.symm
    · rcases h with h | h
      · cases hp : p.command <;> rw [hp] at h <;> simp at h
      · exact ih t r d h

theorem paneSplitLoop_take_le (target root : String) (layout : Option String) :
    ∀ (ps : List Pane) (k : Nat),
      ((paneSplitLoop target root layout ps).take k).countP Op.isSendKeys ≤
        ((paneSplitLoop target root layout ps).take k).countP Op.isSplit := by
  intro ps
  induction ps with
  | nil => intro k; simp [paneSplitLoop]
  | cons p rest ih =>
    intro k
    cases k with
    | zero => simp
    | succ k1 =>
      simp only [paneSplitLoop, List.take_succ_cons, List.countP_cons]
      cases hp : p.command with
      | none =>
        simp only [List.nil_append]
        have := ih k1
        simp [Op.isSplit, Op.isSendKeys] at *
        omega
      | some cmd =>
        cases k1 with
        | zero => simp [Op.isSplit, Op.isSendKeys]
        | succ k2 =>
          simp only [List.singleton_append, List.take_succ_cons, List.countP_cons]
          have := ih k2
          simp [Op.isSplit, Op.isSendKeys] at *
          omega

/-- In every prefix of a trace made of an at-most-one-element head, a body
whose prefixes never hold more sends than splits, and two send-free tails,
the sends never outnumber the splits by more than one. -/
theorem prefix_send_le_split (H B C D : List Op)
    (hH : H.length ≤ 1)
    (hB : ∀ m, (B.take m).countP Op.isSendKeys ≤ (B.take m).countP Op.isSplit)
    (hC : ∀ o ∈ C, Op.isSendKeys o = false)
    (hD : ∀ o ∈ D, Op.isSendKeys o = false) :
    ∀ k, ((H ++ B ++ C ++ D).take k).countP Op.isSendKeys ≤
      ((H ++ B ++ C ++ D).take k).countP Op.isSplit + 1 := by
  intro k
  have hCz : ∀ m, ((C.take m).countP Op.isSendKeys) = 0 := fun m =>
    List.countP_eq_zero.mpr fun o ho => by simp [hC o (List.take_subset _ _ ho)]
  have hDz : ∀ m, ((D.take m).countP Op.isSendKeys) = 0 := fun m =>
    List.countP_eq_zero.mpr fun o ho => by simp [hD o (List.take_subset _ _ ho)]
  have h1 : ((H.take k).countP Op.isSendKeys) ≤ 1 :=
    le_trans (List.countP_le_length _) (by simp [List.length_take]; omega)
  have h2 := hB (k - H.length)
  simp only [List.take_append_eq_append_take, List.countP_append, List.length_append,
    hCz, hDz]
  omega

/-- Claim C4: populating a complex window with `n ≥ 1` panes issues
exactly `n - 1` splits, every split uses `-v` exactly when the layout is
`main-horizontal` and `-h` otherwise, the named layout (when given) is
applied exactly once and only after every split, one keystroke send occurs
per pane carrying a command, and in every trace prefix the number of sends
never exceeds the number of splits plus one (each command is sent only
once its pane exists). -/
theorem claim4_population (session window_name name root : String)
    (cfg : WindowConfig) (base_index : Nat) (h1 : cfg.panes ≠ []) :
    (setup_window_with_control session window_name (Window.Complex name cfg) root
        base_index).countP Op.isSplit = cfg.panes.length - 1 ∧
    (∀ t r d,
      Op.splitWindow t r d ∈
          setup_window_with_control session window_name (Window.Complex name cfg) root
            base_index →
        d = if cfg.layout = some "main-horizontal" then some "-v" else some "-h") ∧
    ((setup_window_with_control session window_name (Window.Complex name cfg) root
        base_index).countP Op.isSelectLayout = if cfg.layout.isSome then 1 else 0) ∧
    (∀ L, cfg.layout = some L →
      ∃ pre post,
        setup_window_with_control session window_name (Window.Complex name cfg) root
            base_index =
          pre ++ Op.selectLayout (session ++ ":" ++ window_name) L :: post ∧
        (∀ o ∈ pre, Op.isSelectLayout o = false) ∧ (∀ o ∈ post, Op.isSplit o = false)) ∧
    ((setup_window_with_control session window_name (Window.Complex name cfg) root
        base_index).countP Op.isSendKeys = cfg.panes.countP fun p => p.command.isSome) ∧
    (∀ k,
      ((setup_window_with_control session window_name (Window.Complex name cfg) root
          base_index).take k).countP Op.isSendKeys ≤
        ((setup_window_with_control session window_name (Window.Complex name cfg) root
            base_index).take k).countP Op.isSplit + 1) := by
  obtain ⟨p0, rest, hps⟩ := List.exists_cons_of_ne_nil h1
  have htr : setup_window_with_control session window_name (Window.Complex name cfg) root
      base_index =
      (match p0.command with
        | some cmd => [Op.sendKeys (session ++ ":" ++ window_name) cmd true]
        | none => []) ++
      paneSplitLoop (session ++ ":" ++ window_name) root cfg.layout rest ++
      (match cfg.layout with
        | some layout_name => [Op.selectLayout (session ++ ":" ++ window_name) layout_name]
        | none => []) ++
      [Op.selectPane (session ++ ":" ++ window_name ++ "." ++ natStr base_index)] := by
    simp [setup_window_with_control, Window.has_panes, Window.panes, Window.layout, hps]
  refine ⟨?_, ?_, ?_, ?_, ?_, ?_⟩
  · rw [htr, hps]
    cases hcmd : p0.command <;> cases hlay : cfg.layout <;>
      simp [List.countP_append, paneSplitLoop_countSplit, Op.isSplit, List.countP_cons]
  · intro t r d hmem
    rw [htr] at hmem
    simp only [List.mem_append, List.mem_singleton] at hmem
    rcases hmem with ((hm | hm) | hm) | hm
    · cases hcmd : p0.command <;> rw [hcmd] at hm <;> simp at hm
    · exact paneSplitLoop_split_dir _ _ _ rest t r d hm
    · cases hlay : cfg.layout <;> rw [hlay] at hm <;> simp at hm
    · simp at hm
  · rw [htr]
    cases hcmd : p0.command <;> cases hlay : cfg.layout <;>
      simp [List.countP_append, paneSplitLoop_countLayout, Op.isSelectLayout,
        List.countP_cons]
  · intro L hL
    refine ⟨(match p0.command with
        | some cmd => [Op.sendKeys (session ++ ":" ++ window_name) cmd true]
        | none => []) ++
      paneSplitLoop (session ++ ":" ++ window_name) root cfg.layout rest,
      [Op.selectPane (session ++ ":" ++ window_name ++ "." ++ natStr base_index)], ?_, ?_, ?_⟩
    · rw [htr, hL]
      simp [List.append_assoc]
    · intro o ho
      simp only [List.mem_append] at ho
      rcases ho with ho | ho
      · cases hcmd : p0.command <;> rw [hcmd] at ho <;> simp at ho
        rw [ho]; rfl
      · simpa using List.countP_eq_zero.mp (paneSplitLoop_countLayout _ _ _ rest) o ho
    · intro o ho
      simp only [List.mem_singleton] at ho
      rw [ho]; rfl
  · rw [htr, hps]
    cases hcmd : p0.command <;> cases hlay : cfg.layout <;>
      simp [List.countP_append, paneSplitLoop_countSend, Op.isSendKeys, List.countP_cons,
        hcmd]
  · intro k
    rw [htr]
    apply prefix_send_le_split
    · cases hcmd : p0.command <;> simp
    · intro m; exact paneSplitLoop_take_le _ _ _ rest m
    · intro o ho
      cases hlay : cfg.layout <;> rw [hlay] at ho <;> simp at ho
      rw [ho]; rfl
    · intro o ho
      simp only [List.mem_singleton] at ho
      rw [ho]; rfl

/-- Witness for C4: a two-pane stacked window yields exactly one split. -/
theorem claim4_witness :
    (setup_window_with_control "s" "w"
        (Window.Complex "w"
          { layout := some "main-horizontal", panes := [Pane.Command "a", Pane.Empty] })
        "/r" 0).countP Op.isSplit = 1 :=
  (claim4_population "s" "w" "w" "/r"
    { layout := some "main-horizontal", panes := [Pane.Command "a", Pane.Empty] }
    0 (by decide)).1

/-! ### C6: the sentinel never leaks into `command_with_output` results -/

/-- `cwoStep` never puts the sentinel into the collected output. -/
theorem cwoStep_output (sentinel : String) (st : CwoState) (t : String) (st1 : CwoState)
    (h : cwoStep sentinel st t = .ok st1) (hst : sentinel ∉ st.output) :
    sentinel ∉ st1.output := by
  simp only [cwoStep] at h
  repeat' split at h
  all_goals cases h
  all_goals try exact hst
  intro hmem
  rcases List.mem_append.mp hmem with hm | hm
  · exact hst hm
  · rename_i hne
    exact hne (List.mem_singleton.mp hm).symm

/-- Invariant of the `command_with_output` loop: a line equal to the
sentinel flips `sentinel_seen` instead of being collected, so the sentinel
never enters the output. -/
theorem cwoLoopT_ok_not_sentinel (sentinel : String) :
    ∀ (ls : List String) (st : CwoState) (out : List String),
      sentinel ∉ st.output → cwoLoopT sentinel st ls = .ok out → sentinel ∉ out := by
  intro ls
  induction ls with
  | nil =>
    intro st out hst h
    simp only [cwoLoopT, cwoFinish] at h
    repeat' split at h
    all_goals cases h
    exact hst
  | cons t rest ih =>
    intro st out hst h
    simp only [cwoLoopT, cwoFinish] at h
    split at h
    · split at h
      · cases h
      · cases h
        exact hst
    · split at h
      · rename_i st1 heq
        exact ih st1 out (cwoStep_output sentinel st t st1 heq hst) h
      · cases h

/-- If `t` does not start with `p`, it does not start with any extension
of `p`. -/
theorem strStarts_trans_false (t p q : String)
    (hpq : p.data.isPrefixOf q.data = true) (h : strStarts t p = false) :
    strStarts t q = false := by
  rw [strStarts] at h ⊢
  by_contra hq
  rw [Bool.not_eq_false, List.isPrefixOf_iff_prefix] at hq
  rw [ List.isPrefixOf_iff_prefix] at hpq
  have := hpq.trans hq
  rw [← List.isPrefixOf_iff_prefix] at this
  rw [this] at h
  cases h

/-- `command_with_output` on a stream whose primary response block is
empty: the first block's begin/end framing, then the sentinel command's
block holding exactly the sentinel line, produce the empty output
sequence, not an error. -/
theorem cwoRun_empty_primary (sentinel b1 e1 b2 e2 : String) (i j : Nat)
    (hs : trimEndCrLf sentinel = sentinel ∧ strStarts sentinel "%" = false)
    (hb1 : trimEndCrLf b1 = b1 ∧ strStarts b1 "%exit" = false ∧
      strStarts b1 "%error" = false ∧ strStarts b1 "%begin" = true ∧
      parse_command_id b1 = .ok i)
    (he1 : trimEndCrLf e1 = e1 ∧ strStarts e1 "%exit" = false ∧
      strStarts e1 "%error" = false ∧ strStarts e1 "%begin" = false ∧
      strStarts e1 "%end" = true)
    (hb2 : trimEndCrLf b2 = b2 ∧ strStarts b2 "%exit" = false ∧
      strStarts b2 "%error" = false ∧ strStarts b2 "%begin" = true ∧
      parse_command_id b2 = .ok j)
    (he2 : trimEndCrLf e2 = e2 ∧ strStarts e2 "%exit" = false ∧
      strStarts e2 "%error" = false ∧ strStarts e2 "%begin" = false ∧
      strStarts e2 "%end" = true ∧ parse_command_id e2 = .ok j) :
    cwoRun sentinel [b1, e1, b2, sentinel, e2] = .ok [] := by
  obtain ⟨hs1, hs2⟩ := hs
  obtain ⟨t1, x1, r1, g1, p1⟩ := hb1
  obtain ⟨t2, x2, r2, g2, n2⟩ := he1
  obtain ⟨t3, x3, r3, g3, p3⟩ := hb2
  obtain ⟨t4, x4, r4, g4, n4, p4⟩ := he2
  have hsx : strStarts sentinel "%exit" = false :=
    strStarts_trans_false _ "%" _ (by decide) hs2
  have hsr : strStarts sentinel "%error" = false :=
    strStarts_trans_false _ "%" _ (by decide) hs2
  have hsg : strStarts sentinel "%begin" = false :=
    strStarts_trans_false _ "%" _ (by decide) hs2
  have hsn : strStarts sentinel "%end" = false :=
    strStarts_trans_false _ "%" _ (by decide) hs2
  have s1 : cwoStep sentinel ⟨[], none, none, none, false, false⟩ b1 =
      .ok ⟨[], none, some i, none, false, false⟩ := by
    simp [cwoStep, x1, r1, g1, p1]
  have s2 : cwoStep sentinel ⟨[], none, some i, none, false, false⟩ e1 =
      .ok ⟨[], none, some i, none, false, false⟩ := by
    simp [cwoStep, x2, r2, g2, n2]
  have s3 : cwoStep sentinel ⟨[], none, some i, none, false, false⟩ b2 =
      .ok ⟨[], none, some i, some j, false, false⟩ := by
    simp [cwoStep, x3, r3, g3, p3]
  have s4 : cwoStep sentinel ⟨[], none, some i, some j, false, false⟩ sentinel =
      .ok ⟨[], none, some i, some j, true, false⟩ := by
    simp [cwoStep, hsx, hsr, hsg, hsn, hs2]
  have s5 : cwoStep sentinel ⟨[], none, some i, some j, true, false⟩ e2 =
      .ok ⟨[], none, some i, some j, true, true⟩ := by
    simp [cwoStep, x4, r4, g4, n4, p4]
  simp only [cwoRun, List.map_cons, List.map_nil, hs1, t1, t2, t3, t4]
  simp only [cwoLoopT, cwoInit, s1, s2, s3, s4, s5, cwoFinish, Bool.and_self,
    Bool.false_and, Bool.and_false, Bool.false_eq_true, ite_false, if_false,
    eq_self_iff_true, ite_true]

/-- Claim C6: `command_with_output` never returns the generated sentinel
line among its output lines, and a stream whose primary block is empty
yields the empty sequence successfully rather than an error. -/
theorem claim6_sentinel :
    (∀ (sentinel : String) (ls out : List String),
      cwoRun sentinel ls = .ok out → sentinel ∉ out) ∧
    (∀ (sentinel b1 e1 b2 e2 : String) (i j : Nat),
      (trimEndCrLf sentinel = sentinel ∧ strStarts sentinel "%" = false) →
      (trimEndCrLf b1 = b1 ∧ strStarts b1 "%exit" = false ∧
        strStarts b1 "%error" = false ∧ strStarts b1 "%begin" = true ∧
        parse_command_id b1 = .ok i) →
      (trimEndCrLf e1 = e1 ∧ strStarts e1 "%exit" = false ∧
        strStarts e1 "%error" = false ∧ strStarts e1 "%begin" = false ∧
        strStarts e1 "%end" = true) →
      (trimEndCrLf b2 = b2 ∧ strStarts b2 "%exit" = false ∧
        strStarts b2 "%error" = false ∧ strStarts b2 "%begin" = true ∧
        parse_command_id b2 = .ok j) →
      (trimEndCrLf e2 = e2 ∧ strStarts e2 "%exit" = false ∧
        strStarts e2 "%error" = false ∧ strStarts e2 "%begin" = false ∧
        strStarts e2 "%end" = true ∧ parse_command_id e2 = .ok j) →
      cwoRun sentinel [b1, e1, b2, sentinel, e2] = .ok []) :=
  ⟨fun sentinel ls out h =>
    cwoLoopT_ok_not_sentinel sentinel (ls.map trimEndCrLf) cwoInit out
      (List.not_mem_nil sentinel) h,
   fun sentinel b1 e1 b2 e2 i j hs hb1 he1 hb2 he2 =>
    cwoRun_empty_primary sentinel b1 e1 b2 e2 i j hs hb1 he1 hb2 he2⟩

/-- Witness for C6: a concrete stream with one output line (the sentinel
is not among the results) and a concrete empty-primary stream. -/
theorem claim6_witness :
    sentinelFor 5 ∉ (["a"] : List String) ∧
    cwoRun (sentinelFor 5)
      ["%begin 100 1 1", "%end 100 1 1", "%begin 100 2 1", sentinelFor 5,
        "%end 100 2 1"] = .ok [] :=
  ⟨claim6_sentinel.1 (sentinelFor 5)
      ["%begin 100 1 1", "a", "%end 100 1 1", "%begin 100 2 1", sentinelFor 5,
        "%end 100 2 1"] ["a"] rfl,
   claim6_sentinel.2 (sentinelFor 5) "%begin 100 1 1" "%end 100 1 1"
      "%begin 100 2 1" "%end 100 2 1" 1 2 ⟨rfl, rfl⟩ ⟨rfl, rfl, rfl, rfl, rfl⟩
      ⟨rfl, rfl, rfl, rfl, rfl⟩ ⟨rfl, rfl, rfl, rfl, rfl⟩ ⟨rfl, rfl, rfl, rfl, rfl, rfl⟩⟩

/-! ### C2 and C3: response-block extraction and error characterization -/

/-- Two prefixes of the same string are comparable, so a string starting
with `p` cannot also start with an incomparable `q`. -/
theorem strStarts_of_incomparable {t p q : String}
    (hp : strStarts t p = true)
    (h1 : p.data.isPrefixOf q.data = false) (h2 : q.data.isPrefixOf p.data = false) :
    strStarts t q = false := by
  rw [strStarts, List.isPrefixOf_iff_prefix] at hp
  by_contra hq
  rw [Bool.not_eq_false, strStarts, List.isPrefixOf_iff_prefix] at hq
  rcases List.prefix_or_prefix_of_prefix hq hp with hc | hc
  · rw [← List.isPrefixOf_iff_prefix, h2] at hc
    cases hc
  · rw [← List.isPrefixOf_iff_prefix, h1] at hc
    cases hc

/-- Every error produced by `parse_command_id` is `malformed` and carries
the offending line. -/
theorem parse_command_id_error_shape (line : String) (e : CmdErr)
    (h : parse_command_id line = .error e) : e = .malformed line := by
  simp only [parse_command_id] at h
  repeat' split at h
  all_goals cases h
  all_goals rfl

/-- A line the `command` loop may skip while no block is open: not an
`%exit` or `%error` line, and not a begin marker. -/
def goodPre (l : String) : Prop :=
  strStarts l "%exit" = false ∧ strStarts l "%error" = false ∧
    strStarts l "%begin" = false

/-- A line the `command` loop may consume inside the block for command
`id` without ending it: not `%exit`/`%error`, and any end marker it
carries parses to a different id. -/
def goodMid (id : Nat) (l : String) : Prop :=
  strStarts l "%exit" = false ∧ strStarts l "%error" = false ∧
    (strStarts l "%end" = true → ∃ n, parse_command_id l = .ok n ∧ n ≠ id)

/-- The end marker closing the block for command `id`. -/
def isEndFor (id : Nat) (l : String) : Prop :=
  strStarts l "%exit" = false ∧ strStarts l "%error" = false ∧
    strStarts l "%begin" = false ∧ strStarts l "%end" = true ∧
    parse_command_id l = .ok id

/-- Prefixes compose: if `t` starts with `q` and `p` is a prefix of `q`,
then `t` starts with `p`. -/
theorem strStarts_trans_true {t p q : String}
    (hpq : p.data.isPrefixOf q.data = true) (h : strStarts t q = true) :
    strStarts t p = true := by
  rw [strStarts, List.isPrefixOf_iff_prefix] at h ⊢
  rw [ List.isPrefixOf_iff_prefix] at hpq
  exact hpq.trans h

/-- Phase-2 soundness: a successful run of the `command` loop inside the
block for `id` decomposes the stream into skipped-or-collected lines, the
matching end marker, and an untouched remainder; the output extends the
accumulator with exactly the non-`%` lines before the end marker. -/
theorem commandLoopT_some_ok (id : Nat) :
    ∀ (ls acc out : List String), commandLoopT (some id) acc ls = .ok out →
      ∃ mid eline post, ls = mid ++ eline :: post ∧ (∀ l ∈ mid, goodMid id l) ∧
        isEndFor id eline ∧
        out = acc ++ mid.filter fun l => !(strStarts l "%") := by
  intro ls
  induction ls with
  | nil => intro acc out h; cases h
  | cons t rest ih =>
    intro acc out h
    simp only [commandLoopT] at h
    by_cases hx : strStarts t "%exit" = true
    · rw [if_pos hx] at h; cases h
    · have hx1 : strStarts t "%exit" = false := by
        rw [← Bool.not_eq_true]; exact hx
      rw [if_neg hx] at h
      by_cases he : strStarts t "%error" = true
      · rw [if_pos he] at h; cases h
      · have he1 : strStarts t "%error" = false := by
          rw [← Bool.not_eq_true]; exact he
        rw [if_neg he] at h
        by_cases hb : strStarts t "%begin" = true
        · rw [if_pos hb] at h
          obtain ⟨mid, eline, post, hls, hmid, hend, hout⟩ := ih acc out h
          have hbp : strStarts t "%" = true := strStarts_trans_true (by decide) hb
          have hbe : strStarts t "%end" = false :=
            strStarts_of_incomparable hb (by decide) (by decide)
          refine ⟨t :: mid, eline, post, by rw [hls, List.cons_append], ?_, hend, ?_⟩
          · intro l hl
            rcases List.mem_cons.mp hl with rfl | hl
            · exact ⟨hx1, he1, fun hc => absurd hc (by rw [hbe]; exact Bool.false_ne_true)⟩
            · exact hmid l hl
          · rw [hout, List.filter_cons, hbp]
            simp
        · rw [if_neg hb] at h
          have hb1 : strStarts t "%begin" = false := by
            rw [← Bool.not_eq_true]; exact hb
          by_cases hd : strStarts t "%end" = true
          · rw [if_pos hd] at h
            cases hp : parse_command_id t with
            | error e => simp only [hp] at h; cases h
            | ok n =>
              simp only [hp] at h
              by_cases hn : n = id
              · rw [if_pos hn] at h
                cases h
                refine ⟨[], t, rest, by simp, by simp, ⟨hx1, he1, hb1, hd, hn ▸ hp⟩, by simp⟩
              · rw [if_neg hn] at h
                obtain ⟨mid, eline, post, hls, hmid, hend, hout⟩ := ih acc out h
                have hdp : strStarts t "%" = true := strStarts_trans_true (by decide) hd
                refine ⟨t :: mid, eline, post, by rw [hls, List.cons_append], ?_, hend, ?_⟩
                · intro l hl
                  rcases List.mem_cons.mp hl with rfl | hl
                  · exact ⟨hx1, he1, fun _ => ⟨n, hp, hn⟩⟩
                  · exact hmid l hl
                · rw [hout, List.filter_cons, hdp]
                  simp
          · rw [if_neg hd] at h
            have hd1 : strStarts t "%end" = false := by
              rw [← Bool.not_eq_true]; exact hd
            by_cases hc : strStarts t "%" = true
            · rw [if_pos hc] at h
              obtain ⟨mid, eline, post, hls, hmid, hend, hout⟩ := ih acc out h
              refine ⟨t :: mid, eline, post, by rw [hls, List.cons_append], ?_, hend, ?_⟩
              · intro l hl
                rcases List.mem_cons.mp hl with rfl | hl
                · exact ⟨hx1, he1, fun hh => absurd hh (by rw [hd1]; exact Bool.false_ne_true)⟩
                · exact hmid l hl
              · rw [hout, List.filter_cons, hc]
                simp
            · rw [if_neg hc] at h
              have hc1 : strStarts t "%" = false := by
                rw [← Bool.not_eq_true]; exact hc
              obtain ⟨mid, eline, post, hls, hmid, hend, hout⟩ := ih (acc ++ [t]) out h
              refine ⟨t :: mid, eline, post, by rw [hls, List.cons_append], ?_, hend, ?_⟩
              · intro l hl
                rcases List.mem_cons.mp hl with rfl | hl
                · exact ⟨hx1, he1, fun hh => absurd hh (by rw [hd1]; exact Bool.false_ne_true)⟩
                · exact hmid l hl
              · rw [hout, List.filter_cons, hc1]
                simp

/-- Phase-2 completeness: inside the block for `id`, consuming good middle
lines up to a matching end marker succeeds with exactly the non-`%` lines
appended to the accumulator, whatever follows the end marker. -/
theorem commandLoopT_some_complete (id : Nat) :
    ∀ (mid : List String), (∀ l ∈ mid, goodMid id l) →
      ∀ (eline : String) (post acc : List String), isEndFor id eline →
        commandLoopT (some id) acc (mid ++ eline :: post) =
          .ok (acc ++ mid.filter fun l => !(strStarts l "%")) := by
  intro mid
  induction mid with
  | nil =>
    intro _ eline post acc hend
    obtain ⟨hx, he, hb, hd, hp⟩ := hend
    simp only [List.nil_append, commandLoopT, List.filter_nil, List.append_nil]
    rw [if_neg (by simp [hx]), if_neg (by simp [he]), if_neg (by simp [hb]),
      if_pos hd]
    simp [hp]
  | cons l mid ih =>
    intro hmid eline post acc hend
    have hgl := hmid l (List.mem_cons_self l mid)
    obtain ⟨hx, he, hrest⟩ := hgl
    have hmid1 : ∀ l1 ∈ mid, goodMid id l1 := fun l1 hl1 =>
      hmid l1 (List.mem_cons_of_mem l hl1)
    simp only [List.cons_append, commandLoopT, List.append_eq]
    rw [if_neg (by simp [hx]), if_neg (by simp [he])]
    by_cases hb : strStarts l "%begin" = true
    · have hbp : strStarts l "%" = true := strStarts_trans_true (by decide) hb
      rw [if_pos hb, ih hmid1 eline post acc hend, List.filter_cons, hbp]
      simp
    · rw [if_neg hb]
      by_cases hd : strStarts l "%end" = true
      · have hdp : strStarts l "%" = true := strStarts_trans_true (by decide) hd
        obtain ⟨n, hp, hn⟩ := hrest hd
        rw [if_pos hd, hp]
        simp only [hn, if_false, ite_false]
        rw [ih hmid1 eline post acc hend, List.filter_cons, hdp]
        simp
      · rw [if_neg hd]
        by_cases hc : strStarts l "%" = true
        · rw [if_pos hc, ih hmid1 eline post acc hend, List.filter_cons, hc]
          simp
        · have hc1 : strStarts l "%" = false := by rw [← Bool.not_eq_true]; exact hc
          rw [if_neg hc, ih hmid1 eline post (acc ++ [l]) hend, List.filter_cons, hc1]
          simp

/-- Phase-1 soundness: a successful run of the `command` loop with no
block open passes a stretch of skippable lines, then a parseable begin
marker that fixes the command id, and continues in phase 2. -/
theorem commandLoopT_none_ok :
    ∀ (ls acc out : List String), commandLoopT none acc ls = .ok out →
      ∃ pre bline id rest, ls = pre ++ bline :: rest ∧ (∀ l ∈ pre, goodPre l) ∧
        strStarts bline "%exit" = false ∧ strStarts bline "%error" = false ∧
        strStarts bline "%begin" = true ∧ parse_command_id bline = .ok id ∧
        commandLoopT (some id) acc rest = .ok out := by
  intro ls
  induction ls with
  | nil => intro acc out h; cases h
  | cons t rest ih =>
    intro acc out h
    simp only [commandLoopT] at h
    by_cases hx : strStarts t "%exit" = true
    · rw [if_pos hx] at h; cases h
    · have hx1 : strStarts t "%exit" = false := by rw [← Bool.not_eq_true]; exact hx
      rw [if_neg hx] at h
      by_cases he : strStarts t "%error" = true
      · rw [if_pos he] at h; cases h
      · have he1 : strStarts t "%error" = false := by rw [← Bool.not_eq_true]; exact he
        rw [if_neg he] at h
        by_cases hb : strStarts t "%begin" = true
        · rw [if_pos hb] at h
          cases hp : parse_command_id t with
          | error e => simp only [hp] at h; cases h
          | ok n =>
            simp only [hp] at h
            exact ⟨[], t, n, rest, by simp, by simp, hx1, he1, hb, hp, h⟩
        · rw [if_neg hb] at h
          have hb1 : strStarts t "%begin" = false := by rw [← Bool.not_eq_true]; exact hb
          have hstep : commandLoopT none acc rest = .ok out := by
            by_cases hd : strStarts t "%end" = true
            · rw [if_pos hd] at h; exact h
            · rw [if_neg hd] at h; exact h
          obtain ⟨pre, bline, id, rest1, hls, hpre, c1, c2, c3, c4, c5⟩ :=
            ih acc out hstep
          refine ⟨t :: pre, bline, id, rest1, by rw [hls, List.cons_append], ?_,
            c1, c2, c3, c4, c5⟩
          intro l hl
          rcases List.mem_cons.mp hl with rfl | hl
          · exact ⟨hx1, he1, hb1⟩
          · exact hpre l hl

/-- Phase-1 completeness: skippable lines before the begin marker are
consumed without effect, and a parseable begin marker opens the block. -/
theorem commandLoopT_none_complete :
    ∀ (pre : List String), (∀ l ∈ pre, goodPre l) →
      ∀ (bline : String) (id : Nat) (rest acc : List String),
        strStarts bline "%exit" = false → strStarts bline "%error" = false →
        strStarts bline "%begin" = true → parse_command_id bline = .ok id →
        commandLoopT none acc (pre ++ bline :: rest) =
          commandLoopT (some id) acc rest := by
  intro pre
  induction pre with
  | nil =>
    intro _ bline id rest acc hx he hb hp
    simp only [List.nil_append, commandLoopT]
    rw [if_neg (by simp [hx]), if_neg (by simp [he]), if_pos hb, hp]
  | cons l pre ih =>
    intro hpre bline id rest acc hx he hb hp
    obtain ⟨gx, ge, gb⟩ := hpre l (List.mem_cons_self l pre)
    have hpre1 : ∀ l1 ∈ pre, goodPre l1 := fun l1 hl1 =>
      hpre l1 (List.mem_cons_of_mem l hl1)
    simp only [List.cons_append, commandLoopT]
    rw [if_neg (by simp [gx]), if_neg (by simp [ge]), if_neg (by simp [gb])]
    by_cases hd : strStarts l "%end" = true
    · rw [if_pos hd]
      exact ih hpre1 bline id rest acc hx he hb hp
    · rw [if_neg hd]
      exact ih hpre1 bline id rest acc hx he hb hp

/-- Error soundness for the `command` loop: every error is the stream
ending, an `%exit` line, an `%error` line carried verbatim, or an
unparseable marker line that was actually submitted to the id parser. -/
theorem commandLoopT_error_shape :
    ∀ (ls : List String) (cid : Option Nat) (acc : List String) (e : CmdErr),
      commandLoopT cid acc ls = .error e →
        e = .closed ∨ e = .exited ∨
        (∃ raw, e = .protocol raw ∧ raw ∈ ls ∧ strStarts raw "%error" = true) ∨
        (∃ raw, e = .malformed raw ∧ raw ∈ ls ∧
          (strStarts raw "%begin" = true ∨ strStarts raw "%end" = true) ∧
          parse_command_id raw = .error (.malformed raw)) := by
  intro ls
  induction ls with
  | nil =>
    intro cid acc e h
    cases cid <;> (simp only [commandLoopT] at h; cases h; exact Or.inl rfl)
  | cons t rest ih =>
    intro cid acc e h
    have lift : (e = .closed ∨ e = .exited ∨
        (∃ raw, e = .protocol raw ∧ raw ∈ rest ∧ strStarts raw "%error" = true) ∨
        (∃ raw, e = .malformed raw ∧ raw ∈ rest ∧
          (strStarts raw "%begin" = true ∨ strStarts raw "%end" = true) ∧
          parse_command_id raw = .error (.malformed raw))) →
        (e = .closed ∨ e = .exited ∨
        (∃ raw, e = .protocol raw ∧ raw ∈ t :: rest ∧ strStarts raw "%error" = true) ∨
        (∃ raw, e = .malformed raw ∧ raw ∈ t :: rest ∧
          (strStarts raw "%begin" = true ∨ strStarts raw "%end" = true) ∧
          parse_command_id raw = .error (.malformed raw))) := by
      rintro (hh | hh | ⟨raw, h1, h2, h3⟩ | ⟨raw, h1, h2, h3, h4⟩)
      · exact Or.inl hh
      · exact Or.inr (Or.inl hh)
      · exact Or.inr (Or.inr (Or.inl ⟨raw, h1, List.mem_cons_of_mem t h2, h3⟩))
      · exact Or.inr (Or.inr (Or.inr ⟨raw, h1, List.mem_cons_of_mem t h2, h3, h4⟩))
    simp only [commandLoopT] at h
    by_cases hx : strStarts t "%exit" = true
    · rw [if_pos hx] at h
      cases h
      exact Or.inr (Or.inl rfl)
    · rw [if_neg hx] at h
      by_cases he : strStarts t "%error" = true
      · rw [if_pos he] at h
        cases h
        exact Or.inr (Or.inr (Or.inl ⟨t, rfl, List.mem_cons_self t rest, he⟩))
      · rw [if_neg he] at h
        by_cases hb : strStarts t "%begin" = true
        · rw [if_pos hb] at h
          cases cid with
          | none =>
            cases hp : parse_command_id t with
            | ok n =>
              simp only [hp] at h
              exact lift (ih (some n) acc e h)
            | error e0 =>
              simp only [hp] at h
              cases h
              have he0 := parse_command_id_error_shape t e hp
              exact Or.inr (Or.inr (Or.inr ⟨t, he0, List.mem_cons_self t rest,
                Or.inl hb, he0 ▸ hp⟩))
          | some n0 =>
            exact lift (ih (some n0) acc e h)
        · rw [if_neg hb] at h
          by_cases hd : strStarts t "%end" = true
          · rw [if_pos hd] at h
            cases cid with
            | none => exact lift (ih none acc e h)
            | some expected =>
              cases hp : parse_command_id t with
              | ok n =>
                simp only [hp] at h
                by_cases hn : n = expected
                · rw [if_pos hn] at h; cases h
                · rw [if_neg hn] at h
                  exact lift (ih (some expected) acc e h)
              | error e0 =>
                simp only [hp] at h
                cases h
                have he0 := parse_command_id_error_shape t e hp
                exact Or.inr (Or.inr (Or.inr ⟨t, he0, List.mem_cons_self t rest,
                  Or.inr hd, he0 ▸ hp⟩))
          · rw [if_neg hd] at h
            cases cid with
            | none => exact lift (ih none acc e h)
            | some n0 =>
              by_cases hc : strStarts t "%" = true
              · rw [if_pos hc] at h
                exact lift (ih (some n0) acc e h)
              · rw [if_neg hc] at h
                exact lift (ih (some n0) (acc ++ [t]) e h)

/-- Claim C2: whenever `ControlClient::command` returns successfully, the
returned lines are exactly the non-`%`-prefixed lines strictly between
the first begin marker of the stream and the first end marker carrying
that begin marker's command id; every `%`-prefixed line, before or inside
the block, is absent from the result. -/
theorem claim2_block_extraction (ls out : List String)
    (h : commandRun ls = .ok out) :
    ∃ pre bline id mid eline post,
      ls.map trimEndCrLf = pre ++ bline :: (mid ++ eline :: post) ∧
      (∀ l ∈ pre, goodPre l) ∧
      strStarts bline "%begin" = true ∧ parse_command_id bline = .ok id ∧
      (∀ l ∈ mid, goodMid id l) ∧ isEndFor id eline ∧
      out = mid.filter (fun l => !(strStarts l "%")) ∧
      ∀ l ∈ out, strStarts l "%" = false := by
  obtain ⟨pre, bline, id, rest, hls, hpre, c1, c2, c3, c4, c5⟩ :=
    commandLoopT_none_ok (ls.map trimEndCrLf) [] out h
  obtain ⟨mid, eline, post, hrest, hmid, hend, hout⟩ :=
    commandLoopT_some_ok id rest [] out c5
  have hout1 : out = mid.filter fun l => !(strStarts l "%") := by simpa using hout
  refine ⟨pre, bline, id, mid, eline, post, by rw [hls, hrest], hpre, c3, c4, hmid,
    hend, hout1, ?_⟩
  intro l hl
  rw [hout1] at hl
  have := (List.mem_filter.mp hl).2
  simpa using this

/-- Witness for C2 at a concrete stream with interleaved notifications and
a foreign end marker inside the block. -/
theorem claim2_witness :
    ∃ pre bline id mid eline post,
      (["junk", "%begin 100 7 1", "a", "%x note", "%end 100 8 1", "b",
        "%end 100 7 1"].map trimEndCrLf) = pre ++ bline :: (mid ++ eline :: post) ∧
      (∀ l ∈ pre, goodPre l) ∧
      strStarts bline "%begin" = true ∧ parse_command_id bline = .ok id ∧
      (∀ l ∈ mid, goodMid id l) ∧ isEndFor id eline ∧
      (["a", "b"] : List String) = mid.filter (fun l => !(strStarts l "%")) ∧
      ∀ l ∈ (["a", "b"] : List String), strStarts l "%" = false :=
  claim2_block_extraction
    ["junk", "%begin 100 7 1", "a", "%x note", "%end 100 8 1", "b", "%end 100 7 1"]
    ["a", "b"] rfl

/-- The framing condition under which `ControlClient::command` succeeds
(amended claim C3): skippable lines, then a parseable begin marker, then
block lines none of which is `%exit`/`%error` and whose end markers all
parse to a different id, then the matching end marker. -/
def okFraming (ls : List String) : Prop :=
  ∃ pre bline id mid eline post,
    ls = pre ++ bline :: (mid ++ eline :: post) ∧
    (∀ l ∈ pre, goodPre l) ∧
    strStarts bline "%exit" = false ∧ strStarts bline "%error" = false ∧
    strStarts bline "%begin" = true ∧ parse_command_id bline = .ok id ∧
    (∀ l ∈ mid, goodMid id l) ∧ isEndFor id eline

/-- Counterexample to claim C3 as stated: `%begin bad` is a begin marker
with a missing id field occurring before the response block completes,
yet `command` succeeds, because a second begin marker is skipped without
being parsed while a block is open. -/
theorem claim3_counterexample :
    commandRun ["%begin 100 7 1", "%begin bad", "x", "%end 100 7 1"] = .ok ["x"] ∧
    strStarts "%begin bad" "%begin" = true ∧
    parse_command_id "%begin bad" = .error (.malformed "%begin bad") :=
  ⟨rfl, rfl, rfl⟩

/-- Claim C3 (amended): `command` succeeds exactly on well-framed streams
— in particular an unparseable begin marker is only fatal while no block
is open, and an unparseable end marker only while a block is open — and
every returned error is the stream ending, an `%exit` line, an `%error`
line carried verbatim in the error, or a marker line that was actually
submitted to the id parser and failed. -/
theorem claim3_amended (ls : List String) :
    ((commandRun ls).isOk = true ↔ okFraming (ls.map trimEndCrLf)) ∧
    (∀ raw, commandRun ls = .error (.protocol raw) →
      raw ∈ ls.map trimEndCrLf ∧ strStarts raw "%error" = true) ∧
    (∀ raw, commandRun ls = .error (.malformed raw) →
      raw ∈ ls.map trimEndCrLf ∧
        (strStarts raw "%begin" = true ∨ strStarts raw "%end" = true) ∧
        parse_command_id raw = .error (.malformed raw)) := by
  refine ⟨⟨?_, ?_⟩, ?_, ?_⟩
  · intro hok
    cases hr : commandRun ls with
    | error e => rw [hr] at hok; cases hok
    | ok out =>
      obtain ⟨pre, bline, id, rest, hls, hpre, c1, c2, c3, c4, c5⟩ :=
        commandLoopT_none_ok (ls.map trimEndCrLf) [] out hr
      obtain ⟨mid, eline, post, hrest, hmid, hend, _⟩ :=
        commandLoopT_some_ok id rest [] out c5
      exact ⟨pre, bline, id, mid, eline, post, by rw [hls, hrest], hpre, c1, c2, c3,
        c4, hmid, hend⟩
  · rintro ⟨pre, bline, id, mid, eline, post, hls, hpre, b1, b2, b3, b4, hmid, hend⟩
    have h1 := commandLoopT_none_complete pre hpre bline id (mid ++ eline :: post) []
      b1 b2 b3 b4
    have h2 := commandLoopT_some_complete id mid hmid eline post [] hend
    rw [commandRun, hls, h1, h2]
    rfl
  · intro raw hr
    rcases commandLoopT_error_shape (ls.map trimEndCrLf) none [] _ hr with
      hc | hc | ⟨raw2, h1, h2, h3⟩ | ⟨raw2, h1, h2, h3, h4⟩
    · cases hc
    · cases hc
    · cases h1
      exact ⟨h2, h3⟩
    · cases h1
  · intro raw hr
    rcases commandLoopT_error_shape (ls.map trimEndCrLf) none [] _ hr with
      hc | hc | ⟨raw2, h1, h2, h3⟩ | ⟨raw2, h1, h2, h3, h4⟩
    · cases hc
    · cases hc
    · cases h1
    · cases h1
      exact ⟨h2, h3, h4⟩

/-- Witness for C3 (amended) at a concrete `%error` stream: the error
carries the raw failure line. -/
theorem claim3_witness :
    "%error boom" ∈ (["%error boom"].map trimEndCrLf) ∧
    strStarts "%error boom" "%error" = true :=
  (claim3_amended ["%error boom"]).2.1 "%error boom" rfl

/-! ### C1, C5, C9, C10: handoff coordinator properties -/

/-- A call whose failure the handoff coordinator records. -/
def failedCall (e : CallLog) : Bool :=
  e.checked && !e.ok

/-- `findIdx?` over appending one element. -/
theorem findIdx?_append_one {α : Type} (p : α → Bool) (a : α) :
    ∀ (l : List α) (i : Nat),
      (l ++ [a]).findIdx? p i =
        match l.findIdx? p i with
        | some k => some k
        | none => if p a then some (i + l.length) else none := by
  intro l
  induction l with
  | nil =>
    intro i
    simp [List.findIdx?_cons, List.findIdx?_nil]
  | cons x l ih =>
    intro i
    simp only [List.cons_append, List.findIdx?_cons]
    by_cases hx : p x = true
    · simp [hx]
    · simp only [hx, if_false, ite_false, Bool.false_eq_true]
      rw [ih (i + 1)]
      cases hf : l.findIdx? p (i + 1) with
      | some k => simp
      | none =>
        simp only [List.length_cons]
        by_cases ha : p a = true <;> simp [ha] <;> omega

/-- What one `hsCall` does to the call log and to the recorded first
error. -/
theorem hsCall_spec (oracle : Nat → Bool) (checked : Bool) (st : HSt) (o : Op) :
    ((hsCall oracle checked st o).1).calls =
      st.calls ++ [⟨o, checked, oracle st.calls.length⟩] ∧
    (st.firstErr = st.calls.findIdx? failedCall →
      ((hsCall oracle checked st o).1).firstErr =
        ((hsCall oracle checked st o).1).calls.findIdx? failedCall) := by
  constructor
  · rfl
  · intro h
    simp only [hsCall]
    rw [findIdx?_append_one, ← h]
    cases hfe : st.firstErr with
    | some k0 => simp [hfe]
    | none =>
      simp only [hfe, Option.isNone_none, Bool.and_true, failedCall]
      cases hc : checked <;> cases ho : oracle st.calls.length <;> simp

/-- The first-error invariant: the recorded first error is the index of
the first failing checked call in the log. -/
def FE (st : HSt) : Prop :=
  st.firstErr = st.calls.findIdx? failedCall

/-- `st1` extends `st`: the call log grows by entries whose operations
satisfy `P`, and the first-error invariant is preserved. -/
def Ext (P : Op → Prop) (st st1 : HSt) : Prop :=
  (∃ d, st1.calls = st.calls ++ d ∧ ∀ e ∈ d, P e.op) ∧ (FE st → FE st1)

theorem Ext_rfl (P : Op → Prop) (st : HSt) : Ext P st st :=
  ⟨⟨[], by simp, by simp⟩, fun h => h⟩

theorem Ext_trans {P : Op → Prop} {st st1 st2 : HSt}
    (h1 : Ext P st st1) (h2 : Ext P st1 st2) : Ext P st st2 := by
  obtain ⟨⟨d1, hc1, hP1⟩, hf1⟩ := h1
  obtain ⟨⟨d2, hc2, hP2⟩, hf2⟩ := h2
  refine ⟨⟨d1 ++ d2, by rw [hc2, hc1, List.append_assoc], ?_⟩, fun h => hf2 (hf1 h)⟩
  intro e he
  rcases List.mem_append.mp he with he | he
  · exact hP1 e he
  · exact hP2 e he

theorem Ext_hsCall (P : Op → Prop) (oracle : Nat → Bool) (checked : Bool)
    (st : HSt) (o : Op) (hP : P o) : Ext P st (hsCall oracle checked st o).1 :=
  ⟨⟨[⟨o, checked, oracle st.calls.length⟩], (hsCall_spec oracle checked st o).1,
    by intro e he; rw [List.mem_singleton.mp he]; exact hP⟩,
   (hsCall_spec oracle checked st o).2⟩

theorem handoffPanes_Ext (oracle : Nat → Bool) (s w : String) (P : Op → Prop)
    (hsend : ∀ target keys enter, P (Op.sendKeys target keys enter)) :
    ∀ (ps : List PaneInfo) (st : HSt),
      (∀ p ∈ ps, ∀ pid, p.pid = some pid → P (Op.runShell (interruptCmd pid))) →
      Ext P st (handoffPanes oracle s w ps st) := by
  intro ps
  induction ps with
  | nil => intro st _; exact Ext_rfl P st
  | cons p ps ih =>
    intro st hkill
    have hkillr : ∀ q ∈ ps, ∀ pid, q.pid = some pid → P (Op.runShell (interruptCmd pid)) :=
      fun q hq => hkill q (List.mem_cons_of_mem p hq)
    simp only [handoffPanes]
    have hExt1 : Ext P st (match p.pid with
        | some pid => (hsCall oracle false st (Op.runShell (interruptCmd pid))).1
        | none => st) := by
      cases hpid : p.pid with
      | none => exact Ext_rfl P st
      | some pid =>
        exact Ext_hsCall P oracle false st _ (hkill p (List.mem_cons_self p ps) pid hpid)
    generalize hst1 : (match p.pid with
        | some pid => (hsCall oracle false st (Op.runShell (interruptCmd pid))).1
        | none => st) = st1 at hExt1 ⊢
    rcases h1 : hsCall oracle true st1
        (Op.sendKeys (s ++ ":" ++ w ++ "." ++ natStr p.index) "C-c" false) with ⟨st2, ok1⟩
    have hExt2 : Ext P st1 st2 := by
      have := Ext_hsCall P oracle true st1
        (Op.sendKeys (s ++ ":" ++ w ++ "." ++ natStr p.index) "C-c" false) (hsend _ _ _)
      rwa [h1] at this
    cases ok1 with
    | false => dsimp only; exact Ext_trans hExt1 hExt2
    | true =>
      dsimp only
      rcases h2 : hsCall oracle true st2
          (Op.sendKeys (s ++ ":" ++ w ++ "." ++ natStr p.index)
            (handoff_stop_signal (handoff_stop_token s w p.index)) true) with ⟨st3, ok2⟩
      have hExt3 : Ext P st2 st3 := by
        have := Ext_hsCall P oracle true st2
          (Op.sendKeys (s ++ ":" ++ w ++ "." ++ natStr p.index)
            (handoff_stop_signal (handoff_stop_token s w p.index)) true) (hsend _ _ _)
        rwa [h2] at this
      cases ok2 with
      | false => dsimp only; exact Ext_trans hExt1 (Ext_trans hExt2 hExt3)
      | true =>
        dsimp only
        exact Ext_trans hExt1 (Ext_trans hExt2 (Ext_trans hExt3 (ih st3 hkillr)))

theorem handoffReplay_Ext (oracle : Nat → Bool) (s w : String) (idxs : List Nat)
    (P : Op → Prop)
    (hsend : ∀ target keys enter, P (Op.sendKeys target keys enter)) :
    ∀ (cmds : List (Nat × String)) (st : HSt),
      Ext P st (handoffReplay oracle s w idxs cmds st) := by
  intro cmds
  induction cmds with
  | nil => intro st; exact Ext_rfl P st
  | cons c cmds ih =>
    intro st
    simp only [handoffReplay]
    by_cases hlen : idxs.length ≤ c.1
    · rw [if_pos hlen]; exact Ext_rfl P st
    · rw [if_neg hlen]
      rcases h1 : hsCall oracle true st
          (Op.sendKeys (s ++ ":" ++ w ++ "." ++ natStr (idxs.getD c.1 0)) c.2 true) with
        ⟨st1, ok1⟩
      have hExt1 : Ext P st st1 := by
        have := Ext_hsCall P oracle true st
          (Op.sendKeys (s ++ ":" ++ w ++ "." ++ natStr (idxs.getD c.1 0)) c.2 true)
          (hsend _ _ _)
        rwa [h1] at this
      cases ok1 with
      | false => exact hExt1
      | true => exact Ext_trans hExt1 (ih st1)

theorem handoffWindow_Ext (oracle : Nat → Bool) (paneLines : Nat → List String)
    (s : String) (is_target : Bool) (session_windows : List String)
    (wn : String) (cmds : List String) (P : Op → Prop)
    (hsend : ∀ target keys enter, P (Op.sendKeys target keys enter))
    (hLP : ∀ target, P (Op.listPanes target))
    (hkill : ∀ k, ∀ p ∈ parse_pane_infos (paneLines k), ∀ pid,
      p.pid = some pid → P (Op.runShell (interruptCmd pid))) :
    ∀ st, Ext P st (handoffWindow oracle paneLines s is_target session_windows
      wn cmds st) := by
  intro st
  simp only [handoffWindow]
  by_cases hc : session_windows.contains wn = true
  · rw [if_neg (not_not_intro hc)]
    rcases h1 : hsCall oracle true st (Op.listPanes (s ++ ":" ++ wn)) with ⟨st1, ok1⟩
    have hExt1 : Ext P st st1 := by
      have := Ext_hsCall P oracle true st (Op.listPanes (s ++ ":" ++ wn)) (hLP _)
      rwa [h1] at this
    cases ok1 with
    | false => exact hExt1
    | true =>
      dsimp only
      by_cases hemp : (parse_pane_infos (paneLines st.calls.length)).isEmpty = true
      · rw [if_pos hemp]; exact hExt1
      · rw [if_neg hemp]
        have hExt2 : Ext P st1 (handoffPanes oracle s wn
            (parse_pane_infos (paneLines st.calls.length)) st1) :=
          handoffPanes_Ext oracle s wn P hsend _ st1 (hkill st.calls.length)
        cases is_target with
        | false => exact Ext_trans hExt1 hExt2
        | true =>
          exact Ext_trans hExt1 (Ext_trans hExt2
            (handoffReplay_Ext oracle s wn _ P hsend _ _))
  · rw [if_pos hc]
    exact Ext_rfl P st

theorem foldWindows_Ext (oracle : Nat → Bool) (paneLines : Nat → List String)
    (s : String) (is_target : Bool) (session_windows : List String) (P : Op → Prop)
    (hsend : ∀ target keys enter, P (Op.sendKeys target keys enter))
    (hLP : ∀ target, P (Op.listPanes target))
    (hkill : ∀ k, ∀ p ∈ parse_pane_infos (paneLines k), ∀ pid,
      p.pid = some pid → P (Op.runShell (interruptCmd pid))) :
    ∀ (cfgs : List (String × List String)) (st : HSt),
      Ext P st (cfgs.foldl (fun st wc => handoffWindow oracle paneLines s is_target
        session_windows wc.1 wc.2 st) st) := by
  intro cfgs
  induction cfgs with
  | nil => intro st; exact Ext_rfl P st
  | cons wc cfgs ih =>
    intro st
    simp only [List.foldl_cons]
    exact Ext_trans
      (handoffWindow_Ext oracle paneLines s is_target session_windows wc.1 wc.2 P
        hsend hLP hkill st) (ih _)

theorem handoffSession_Ext (oracle : Nat → Bool) (winLines paneLines : Nat → List String)
    (target : String) (cfgs : List (String × List String)) (s : String) (P : Op → Prop)
    (hsend : ∀ target keys enter, P (Op.sendKeys target keys enter))
    (hLP : ∀ target, P (Op.listPanes target))
    (hLW : ∀ session, P (Op.listWindows session))
    (hkill : ∀ k, ∀ p ∈ parse_pane_infos (paneLines k), ∀ pid,
      p.pid = some pid → P (Op.runShell (interruptCmd pid))) :
    ∀ st, Ext P st (handoffSession oracle winLines paneLines target cfgs s st) := by
  intro st
  simp only [handoffSession]
  rcases h1 : hsCall oracle true st (Op.listWindows s) with ⟨st1, ok1⟩
  have hExt1 : Ext P st st1 := by
    have := Ext_hsCall P oracle true st (Op.listWindows s) (hLW _)
    rwa [h1] at this
  cases ok1 with
  | false => exact hExt1
  | true =>
    dsimp only
    exact Ext_trans hExt1 (foldWindows_Ext oracle paneLines s
      (decide (s = target)) (winLines st.calls.length) P hsend hLP hkill cfgs st1)

theorem foldSessions_Ext (oracle : Nat → Bool) (winLines paneLines : Nat → List String)
    (target : String) (cfgs : List (String × List String)) (P : Op → Prop)
    (hsend : ∀ target keys enter, P (Op.sendKeys target keys enter))
    (hLP : ∀ target, P (Op.listPanes target))
    (hLW : ∀ session, P (Op.listWindows session))
    (hkill : ∀ k, ∀ p ∈ parse_pane_infos (paneLines k), ∀ pid,
      p.pid = some pid → P (Op.runShell (interruptCmd pid))) :
    ∀ (sessions : List String) (st : HSt),
      Ext P st (sessions.foldl (fun st session_name => handoffSession oracle winLines
        paneLines target cfgs session_name st) st) := by
  intro sessions
  induction sessions with
  | nil => intro st; exact Ext_rfl P st
  | cons s sessions ih =>
    intro st
    simp only [List.foldl_cons]
    exact Ext_trans
      (handoffSession_Ext oracle winLines paneLines target cfgs s P hsend hLP hLW
        hkill st) (ih _)

/-- The entire handoff invocation extends the empty log with calls
satisfying `P`, preserving the first-error invariant. -/
theorem handoff_Ext (project : Project) (target : String) (all_sessions : List String)
    (oracle : Nat → Bool) (winLines paneLines : Nat → List String) (P : Op → Prop)
    (hsend : ∀ target keys enter, P (Op.sendKeys target keys enter))
    (hLP : ∀ target, P (Op.listPanes target))
    (hLW : ∀ session, P (Op.listWindows session))
    (hkill : ∀ k, ∀ p ∈ parse_pane_infos (paneLines k), ∀ pid,
      p.pid = some pid → P (Op.runShell (interruptCmd pid))) :
    Ext P hsInit
      (handoff_project_windows project target all_sessions oracle winLines paneLines).1 := by
  simp only [handoff_project_windows]
  by_cases h1 : project.worktree_handoff_windows.isEmpty = true
  · rw [if_pos h1]; exact Ext_rfl P hsInit
  · rw [if_neg h1]
    by_cases h2 : (running_project_sessions project.name all_sessions).isEmpty = true
    · rw [if_pos h2]; exact Ext_rfl P hsInit
    · rw [if_neg h2]
      by_cases h3 : (project.worktree_handoff_windows.filterMap fun window_name =>
          let commands := commands_for_window project.windows window_name
          if commands.isEmpty then none
          else some (window_name, commands)).isEmpty = true
      · rw [if_pos h3]; exact Ext_rfl P hsInit
      · rw [if_neg h3]
        exact foldSessions_Ext oracle winLines paneLines target _ P hsend hLP hLW
          hkill _ hsInit

/-- Processing one session always logs its `list-windows` call, whatever
happens afterwards. -/
theorem handoffSession_listWindows (oracle : Nat → Bool)
    (winLines paneLines : Nat → List String) (target : String)
    (cfgs : List (String × List String)) (s : String) (st : HSt) :
    ∃ e ∈ (handoffSession oracle winLines paneLines target cfgs s st).calls,
      e.op = Op.listWindows s := by
  simp only [handoffSession]
  rcases h1 : hsCall oracle true st (Op.listWindows s) with ⟨st1, ok1⟩
  have hst1 : st1.calls = st.calls ++ [⟨Op.listWindows s, true, oracle st.calls.length⟩] := by
    have := (hsCall_spec oracle true st (Op.listWindows s)).1
    rw [h1] at this
    exact this
  have hmem : (⟨Op.listWindows s, true, oracle st.calls.length⟩ : CallLog) ∈ st1.calls := by
    rw [hst1]; simp
  cases ok1 with
  | false => exact ⟨_, hmem, rfl⟩
  | true =>
    dsimp only
    obtain ⟨⟨d, hd, _⟩, _⟩ := foldWindows_Ext oracle paneLines s (decide (s = target))
      (winLines st.calls.length) (fun _ => True) (fun _ _ _ => trivial) (fun _ => trivial)
      (fun _ _ _ _ _ => trivial) cfgs st1
    exact ⟨_, by rw [hd]; exact List.mem_append_left _ hmem, rfl⟩

/-- The session fold logs a `list-windows` call for every session. -/
theorem foldSessions_listWindows (oracle : Nat → Bool)
    (winLines paneLines : Nat → List String) (target : String)
    (cfgs : List (String × List String)) :
    ∀ (sessions : List String) (st : HSt), ∀ s ∈ sessions,
      ∃ e ∈ (sessions.foldl (fun st session_name => handoffSession oracle winLines
        paneLines target cfgs session_name st) st).calls, e.op = Op.listWindows s := by
  intro sessions
  induction sessions with
  | nil => intro st s hs; cases hs
  | cons s0 sessions ih =>
    intro st s hs
    simp only [List.foldl_cons]
    rcases List.mem_cons.mp hs with rfl | hs
    · obtain ⟨e, he, hop⟩ := handoffSession_listWindows oracle winLines paneLines
        target cfgs s st
      obtain ⟨⟨d, hd, _⟩, _⟩ := foldSessions_Ext oracle winLines paneLines target cfgs
        (fun _ => True) (fun _ _ _ => trivial) (fun _ => trivial) (fun _ => trivial)
        (fun _ _ _ _ _ => trivial) sessions
        (handoffSession oracle winLines paneLines target cfgs s st)
      exact ⟨e, by rw [hd]; exact List.mem_append_left _ he, hop⟩
    · exact ih _ s hs

/-- Claim C9: a handoff invocation returns the index of the first failing
checked call (wrapped) — success exactly when no checked call failed —
and, whenever the guards pass, it attempts a window listing for every
sibling session regardless of earlier errors. -/
theorem claim9_error_collection (project : Project) (target : String)
    (all_sessions : List String) (oracle : Nat → Bool)
    (winLines paneLines : Nat → List String) :
    ((handoff_project_windows project target all_sessions oracle winLines
        paneLines).2 =
      (handoff_project_windows project target all_sessions oracle winLines
        paneLines).1.calls.findIdx? failedCall) ∧
    (project.worktree_handoff_windows.isEmpty = false →
      (project.worktree_handoff_windows.filterMap fun window_name =>
        let commands := commands_for_window project.windows window_name
        if commands.isEmpty then none
        else some (window_name, commands)).isEmpty = false →
      ∀ s ∈ running_project_sessions project.name all_sessions,
        ∃ e ∈ (handoff_project_windows project target all_sessions oracle winLines
          paneLines).1.calls, e.op = Op.listWindows s) := by
  constructor
  · have hfe : FE (handoff_project_windows project target all_sessions oracle winLines
        paneLines).1 :=
      (handoff_Ext project target all_sessions oracle winLines paneLines
        (fun _ => True) (fun _ _ _ => trivial) (fun _ => trivial) (fun _ => trivial)
        (fun _ _ _ _ _ => trivial)).2 rfl
    have hr : (handoff_project_windows project target all_sessions oracle winLines
        paneLines).2 =
        (handoff_project_windows project target all_sessions oracle winLines
          paneLines).1.firstErr := by
      simp only [handoff_project_windows]
      by_cases h1 : project.worktree_handoff_windows.isEmpty = true
      · rw [if_pos h1]; rfl
      · rw [if_neg h1]
        by_cases h2 : (running_project_sessions project.name all_sessions).isEmpty = true
        · rw [if_pos h2]; rfl
        · rw [if_neg h2]
          by_cases h3 : (project.worktree_handoff_windows.filterMap fun window_name =>
              let commands := commands_for_window project.windows window_name
              if commands.isEmpty then none
              else some (window_name, commands)).isEmpty = true
          · rw [if_pos h3]; rfl
          · rw [if_neg h3]
    exact hr.trans hfe
  · intro hw hcfg s hs
    have hse : (running_project_sessions project.name all_sessions).isEmpty = false := by
      cases hrs : running_project_sessions project.name all_sessions with
      | nil => rw [hrs] at hs; cases hs
      | cons a l => rfl
    simp only [handoff_project_windows, hw, hcfg, hse, Bool.false_eq_true, if_false,
      ite_false]
    exact foldSessions_listWindows oracle winLines paneLines target _ _ hsInit s hs

/-- Witness for C9 on the concrete one-session scenario. -/
theorem claim9_witness :
    ∃ e ∈ (handoff_project_windows demoProject "p" ["p"] (fun _ => true)
      demoWinLines demoPaneLines).1.calls, e.op = Op.listWindows "p" :=
  (claim9_error_collection demoProject "p" ["p"] (fun _ => true) demoWinLines
    demoPaneLines).2 rfl rfl "p" (by decide)

/-- Claim C10: for pane lines with exactly four tab-separated fields (the
format string used by `list_panes`), `parse_pane_infos` never produces a
pid — the fifth field it would read does not exist — and consequently a
handoff invocation whose pane listings all return four-field lines never
issues a direct interrupt-signal delivery (`run-shell kill`). -/
theorem claim10_pid_none :
    (∀ (lines : List String), (∀ l ∈ lines, (splitChar '\t' l).length = 4) →
      ∀ p ∈ parse_pane_infos lines, p.pid = none) ∧
    (∀ (project : Project) (target : String) (all_sessions : List String)
      (oracle : Nat → Bool) (winLines paneLines : Nat → List String),
      (∀ k, ∀ l ∈ paneLines k, (splitChar '\t' l).length = 4) →
      ∀ e ∈ (handoff_project_windows project target all_sessions oracle winLines
        paneLines).1.calls, Op.isRunShell e.op = false) := by
  have partA : ∀ (lines : List String), (∀ l ∈ lines, (splitChar '\t' l).length = 4) →
      ∀ p ∈ parse_pane_infos lines, p.pid = none := by
    intro lines h4 p hp
    simp only [parse_pane_infos] at hp
    have hp1 := (List.perm_insertionSort
      (fun a b : PaneInfo => a.index ≤ b.index) _).mem_iff.mp hp
    obtain ⟨line, hline, hf⟩ := List.mem_filterMap.mp hp1
    cases hidx : parseU32 (trimStr ((splitChar '\t' line).headD "")) with
    | none => rw [hidx] at hf; cases hf
    | some idx =>
      rw [hidx] at hf
      cases hf
      have hdrop : (splitChar '\t' line).drop 4 = [] :=
        List.drop_eq_nil_of_le (le_of_eq (h4 line hline))
      simp [hdrop]
  refine ⟨partA, ?_⟩
  intro project target all_sessions oracle winLines paneLines h4 e he
  have hExt := handoff_Ext project target all_sessions oracle winLines paneLines
    (fun o => Op.isRunShell o = false) (fun _ _ _ => rfl) (fun _ => rfl) (fun _ => rfl)
    (fun k p hp pid hpid => absurd (hpid ▸ partA (paneLines k) (h4 k) p hp)
      (by simp))
  obtain ⟨⟨d, hd, hP⟩, _⟩ := hExt
  rw [hd] at he
  rcases List.mem_append.mp he with he | he
  · cases he
  · exact hP e he

/-- Witness for C10: the pane of the concrete four-field listing carries
no pid. -/
theorem claim10_witness :
    ({ index := 0, pid := none } : PaneInfo).pid = none :=
  claim10_pid_none.1 ["0\t%0\tnode\t/x"] (by decide)
    { index := 0, pid := none } (by decide)

/-- An `hsCall` under an all-succeeding oracle: the entry is logged as ok
and no error is recorded. -/
theorem hsCall_happy (oracle : Nat → Bool) (hor : ∀ k, oracle k = true)
    (checked : Bool) (st : HSt) (o : Op) :
    hsCall oracle checked st o = (⟨st.calls ++ [⟨o, checked, true⟩], st.firstErr⟩, true) := by
  simp [hsCall, hor]

/-- Under an all-succeeding oracle, the pane-stop loop injects the
stop-acknowledgement signal command for every pane. -/
theorem handoffPanes_stop_sent (oracle : Nat → Bool) (s w : String)
    (hor : ∀ k, oracle k = true) :
    ∀ (ps : List PaneInfo) (st : HSt), ∀ p ∈ ps,
      ∃ e ∈ (handoffPanes oracle s w ps st).calls,
        e.op = Op.sendKeys (s ++ ":" ++ w ++ "." ++ natStr p.index)
          (handoff_stop_signal (handoff_stop_token s w p.index)) true := by
  intro ps
  induction ps with
  | nil => intro st p hp; cases hp
  | cons q ps ih =>
    intro st p hp
    rcases List.mem_cons.mp hp with rfl | hp
    · simp only [handoffPanes, hsCall_happy oracle hor]
      obtain ⟨⟨d, hd, _⟩, _⟩ := handoffPanes_Ext oracle s w (fun _ => True)
        (fun _ _ _ => trivial) ps _ (fun _ _ _ _ => trivial)
      refine ⟨⟨Op.sendKeys (s ++ ":" ++ w ++ "." ++ natStr p.index)
        (handoff_stop_signal (handoff_stop_token s w p.index)) true, true, true⟩, ?_, rfl⟩
      rw [hd]
      apply List.mem_append_left
      simp
    · simp only [handoffPanes, hsCall_happy oracle hor]
      exact ih _ p hp

/-- Counterexample to claim C1 as stated: the complete call trace of a
concrete handoff contains the interrupt keystroke and the injected
stop-acknowledgement signal command for the pane, but no blocking
wait-for call at all — the replay command is sent immediately after. -/
theorem claim1_counterexample :
    (handoff_project_windows demoProject "p" ["p"] (fun _ => true) demoWinLines
        demoPaneLines).1.calls.map CallLog.op =
      [Op.listWindows "p", Op.listPanes "p:server",
        Op.sendKeys "p:server.0" "C-c" false,
        Op.sendKeys "p:server.0" "tmux wait-for -S twig-handoff-stop:p:server:0" true,
        Op.sendKeys "p:server.0" "npm start" true] ∧
    (handoff_project_windows demoProject "p" ["p"] (fun _ => true) demoWinLines
        demoPaneLines).1.calls.all (fun e => !(e.op.isWaitFor)) = true := by
  constructor <;> decide

/-- Claim C1 (amended): the handoff coordinator injects the
stop-acknowledgement signal command unique to (session, window, pane
index) into every pane it stops, but it never issues any blocking
wait-for protocol call — it proceeds immediately to the next pane and to
replaying commands without waiting for the acknowledgement. -/
theorem claim1_amended :
    (∀ (project : Project) (target : String) (all_sessions : List String)
      (oracle : Nat → Bool) (winLines paneLines : Nat → List String),
      ∀ e ∈ (handoff_project_windows project target all_sessions oracle winLines
        paneLines).1.calls, Op.isWaitFor e.op = false) ∧
    (∀ (oracle : Nat → Bool) (s w : String) (ps : List PaneInfo) (st : HSt),
      (∀ k, oracle k = true) → ∀ p ∈ ps,
      ∃ e ∈ (handoffPanes oracle s w ps st).calls,
        e.op = Op.sendKeys (s ++ ":" ++ w ++ "." ++ natStr p.index)
          (handoff_stop_signal (handoff_stop_token s w p.index)) true) := by
  constructor
  · intro project target all_sessions oracle winLines paneLines e he
    obtain ⟨⟨d, hd, hP⟩, _⟩ := handoff_Ext project target all_sessions oracle winLines
      paneLines (fun o => Op.isWaitFor o = false) (fun _ _ _ => rfl) (fun _ => rfl)
      (fun _ => rfl) (fun _ _ _ _ _ => rfl)
    rw [hd] at he
    rcases List.mem_append.mp he with he | he
    · cases he
    · exact hP e he
  · intro oracle s w ps st hor p hp
    exact handoffPanes_stop_sent oracle s w hor ps st p hp

/-- Witness for C1 (amended) on one concrete pane. -/
theorem claim1_amended_witness :
    ∃ e ∈ (handoffPanes (fun _ => true) "p" "server"
      [{ index := 0, pid := none }] hsInit).calls,
      e.op = Op.sendKeys ("p" ++ ":" ++ "server" ++ "." ++ natStr 0)
        (handoff_stop_signal (handoff_stop_token "p" "server" 0)) true :=
  claim1_amended.2 (fun _ => true) "p" "server" [{ index := 0, pid := none }] hsInit
    (fun _ => rfl) { index := 0, pid := none } (by decide)

/-- Under an all-succeeding oracle, the replay loop over commands
enumerated from `j` sends the commands zipped against the pane indices
from position `j` on — one command per index, truncating when commands
outnumber indices. -/
theorem handoffReplay_happy (oracle : Nat → Bool) (s w : String) (idxs : List Nat)
    (hor : ∀ k, oracle k = true) :
    ∀ (cmds : List String) (j : Nat) (st : HSt),
      (handoffReplay oracle s w idxs (List.enumFrom j cmds) st).calls =
        st.calls ++ (cmds.zip (idxs.drop j)).map fun ci =>
          (⟨Op.sendKeys (s ++ ":" ++ w ++ "." ++ natStr ci.2) ci.1 true, true,
            true⟩ : CallLog) := by
  intro cmds
  induction cmds with
  | nil => intro j st; simp [handoffReplay, List.enumFrom]
  | cons c cmds ih =>
    intro j st
    simp only [List.enumFrom, handoffReplay]
    by_cases hlen : idxs.length ≤ j
    · rw [if_pos hlen, List.drop_eq_nil_of_le hlen]
      simp
    · rw [if_neg hlen]
      have hj : j < idxs.length := by omega
      rw [hsCall_happy oracle hor]
      dsimp only
      rw [ih (j + 1)]
      rw [List.drop_eq_getElem_cons hj, List.zip_cons_cons, List.map_cons,
        List.getD_eq_getElem idxs 0 hj]
      simp [List.append_assoc]

/-- Claim C5: when a handoff window is processed (present in the session,
pane listing succeeded, at least one pane) under a successful oracle, the
configured commands are replayed if and only if the session is the
designated target; when replayed, the i-th command goes to the i-th pane
index of the (ascending-sorted) pane index list, truncated when commands
outnumber panes. -/
theorem claim5_replay (oracle : Nat → Bool) (paneLines : Nat → List String)
    (session_name target : String) (session_windows : List String)
    (window_name : String) (commands : List String) (st : HSt)
    (hor : ∀ k, oracle k = true)
    (hwin : session_windows.contains window_name = true)
    (hne : (parse_pane_infos (paneLines st.calls.length)).isEmpty = false) :
    (handoffWindow oracle paneLines session_name (decide (session_name = target))
        session_windows window_name commands st).calls =
      (handoffPanes oracle session_name window_name
          (parse_pane_infos (paneLines st.calls.length))
          ⟨st.calls ++ [⟨Op.listPanes (session_name ++ ":" ++ window_name), true, true⟩],
            st.firstErr⟩).calls ++
        (if session_name = target then
          (commands.zip ((parse_pane_infos (paneLines st.calls.length)).map
              PaneInfo.index)).map fun ci =>
            (⟨Op.sendKeys (session_name ++ ":" ++ window_name ++ "." ++ natStr ci.2)
              ci.1 true, true, true⟩ : CallLog)
        else []) ∧
    List.Sorted (· ≤ ·)
      ((parse_pane_infos (paneLines st.calls.length)).map PaneInfo.index) := by
  constructor
  · simp only [handoffWindow]
    rw [if_neg (not_not_intro hwin)]
    rw [hsCall_happy oracle hor]
    dsimp only
    rw [if_neg (by simp [hne])]
    by_cases ht : session_name = target
    · rw [if_pos (by simp [ht]), if_pos ht]
      rw [show commands.enum = List.enumFrom 0 commands from rfl]
      rw [handoffReplay_happy oracle session_name window_name _ hor commands 0 _]
      rw [List.drop_zero]
    · rw [if_neg (by simp [ht]), if_neg ht]
      simp
  · haveI : IsTotal PaneInfo (fun a b => a.index ≤ b.index) :=
      ⟨fun a b => Nat.le_total a.index b.index⟩
    haveI : IsTrans PaneInfo (fun a b => a.index ≤ b.index) :=
      ⟨fun _ _ _ hab hbc => le_trans hab hbc⟩
    have hs := List.sorted_insertionSort (fun a b : PaneInfo => a.index ≤ b.index)
      ((paneLines st.calls.length).filterMap fun line =>
        match parseU32 (trimStr ((splitChar '\t' line).headD "")) with
        | some index =>
          some { index := index,
                 pid := (((splitChar '\t' line).drop 4).head?).bind fun v =>
                   parseU32 (trimStr v) }
        | none => none)
    rw [parse_pane_infos]
    exact List.pairwise_map.mpr hs

/-- Witness for C5 on the concrete one-pane scenario: the sorted pane
index list. -/
theorem claim5_witness :
    List.Sorted (· ≤ ·)
      ((parse_pane_infos (demoPaneLines hsInit.calls.length)).map PaneInfo.index) :=
  (claim5_replay (fun _ => true) demoPaneLines "p" "p" ["server"] "server"
    ["npm start"] hsInit (fun _ => rfl) rfl rfl).2

end Twig